import Mathlib

/-!
Signing service: admission queue, worker pool, signature store, pending tracker, status
queries and persistence.

A shallow embedding of `internal/app` (`app.go`, `handlers.go`, `store.go`, `track.go`,
`encrypt.go`) and of the state handling of `main.go`.

Modelling conventions

* `string` is `String`, which holds the Go strings that are valid UTF-8; `float64` quantities
  (`Timing.TimeEstimate`, minutes) are exact rationals `ℚ`; `time.Time` is an integer count of
  nanoseconds, `time.Duration` an integer count of nanoseconds saturating at the `int64` bounds
  as `Time.Sub` does.
* `map[string]V` is `GoMap V`: either the nil map or an initialised finite map with unique keys.
  Reading or deleting from the nil map is allowed, assigning into it panics.
* The buffered channel `Encrypt` is `Chan Request`: a capacity, the FIFO buffer, and whether a
  receiver is ready.  A send proceeds when the buffer has room, or, on an unbuffered channel,
  when a receiver is ready (rendezvous).
* The command channels `Store` and `Track` are the sequence of commands sent and not yet
  received by the owning actor, oldest first.
* Inputs taken from the environment are explicit parameters: the generated UUID, `time.Now()`,
  the cancellation state of the context, the map contents seen by later polls, the outcome of
  each call of the signing service, the readable files and the outcome of each write, and the
  two functions of `encoding/json`.
-/

namespace App

/-! ## Time -/

/-- Instants, `time.Time`, in nanoseconds. -/
abbrev Time := Int

/-- Durations, `time.Duration`, in nanoseconds. -/
abbrev Duration := Int

def maxDuration : Duration := 2 ^ 63 - 1

def minDuration : Duration := -(2 ^ 63)

/-- The constant `time.Minute`. -/
def Minute : Duration := 60 * 1000000000

/-- The difference `t - u` of `Time.Sub`, saturating at the largest and smallest `Duration`. -/
def Time.Sub (t u : Time) : Duration :=
  if t - u > maxDuration then maxDuration
  else if t - u < minDuration then minDuration
  else t - u

/-- The elapsed time `time.Since(t)`, read at instant `now`. -/
def Since (now t : Time) : Duration := Time.Sub now t

/-- The method `Duration.Minutes`: whole minutes plus the remaining nanoseconds as a fraction. -/
def Duration.Minutes (d : Duration) : ℚ :=
  ((Int.tdiv d Minute : Int) : ℚ) + ((Int.tmod d Minute : Int) : ℚ) / (60 * 1000000000)

/-! ## Maps -/

/-- A Go map with string keys: the nil map, or an initialised finite map. -/
inductive GoMap (V : Type) where
  | nil : GoMap V
  | mk (m : AList (fun _ : String => V)) : GoMap V

namespace GoMap

variable {V : Type}

/-- The initialised empty map, `make(map[string]V)`. -/
def make : GoMap V := .mk ∅

/-- The two-valued read `v, ok := m[k]`; `none` stands for `ok = false`. -/
def lookup (k : String) : GoMap V → Option V
  | .nil => none
  | .mk m => m.lookup k

/-- The assignment `m[k] = v`; `none` stands for the panic on a nil map. -/
def store (k : String) (v : V) : GoMap V → Option (GoMap V)
  | .nil => none
  | .mk m => some (.mk (m.insert k v))

/-- The builtin `delete(m, k)`, a no-op on the nil map and on an absent key. -/
def delete (k : String) : GoMap V → GoMap V
  | .nil => .nil
  | .mk m => .mk (m.erase k)

/-- The builtin `len(m)`. -/
def len : GoMap V → Nat
  | .nil => 0
  | .mk m => m.entries.length

end GoMap

/-! ## Channels -/

/-- A channel of capacity `cap` with its buffered elements, oldest first. -/
structure Chan (α : Type) where
  cap : Nat
  buf : List α
  recvReady : Bool

/-- Outcome of a send attempted as a `select` case with a `default` branch. -/
inductive SendResult (α : Type) where
  | sent (ch : Chan α) : SendResult α
  | handedOff (ch : Chan α) (v : α) : SendResult α
  | wouldBlock : SendResult α

/-- A non-blocking send `case ch <- v:` of a `select` with `default`. -/
def Chan.trySend {α : Type} (ch : Chan α) (v : α) : SendResult α :=
  if ch.buf.length < ch.cap then .sent { ch with buf := ch.buf ++ [v] }
  else if ch.cap = 0 ∧ ch.recvReady = true then .handedOff { ch with recvReady := false } v
  else .wouldBlock

/-- The builtin `len(ch)`. -/
def Chan.len {α : Type} (ch : Chan α) : Nat := ch.buf.length

/-! ## Data model (`app.go`) -/

structure SignedRequest where
  RequestId : String
  Signature : String
  Add : Bool
  deriving DecidableEq, Repr

structure Request where
  RequestId : String
  Message : String
  deriving DecidableEq, Repr

structure Timing where
  TimeAdded : Time
  TimeEstimate : ℚ
  deriving DecidableEq, Repr

structure PendingRequest extends Request, Timing where
  Add : Bool
  deriving DecidableEq, Repr

structure Application where
  Encrypt : Chan Request
  Store : List SignedRequest
  Signatures : GoMap String
  Track : List PendingRequest
  Requests : GoMap PendingRequest
  ServerPort : String

/-- The method `Application.GetEncryptionTiming`. -/
def Application.GetEncryptionTiming (application : Application) (currentTime : Time) : Timing :=
  let timeEstimate : ℚ := max 1 ((Int.ceil ((application.Encrypt.len : ℚ) / 5.0) : Int) : ℚ)
  { TimeAdded := currentTime, TimeEstimate := timeEstimate }

/-! ## Run loops -/

/-- Outcome of one iteration of a `for { select { ... } }` run loop. -/
inductive Iter (σ : Type) where
  | next (s : σ) : Iter σ
  | returned (err : Option String) (s : σ) : Iter σ
  | blocked (s : σ) : Iter σ
  | panicked (s : σ) : Iter σ

/-- Outcome of a run loop observed over finitely many iterations. -/
inductive LoopResult (σ : Type) where
  | running (s : σ) : LoopResult σ
  | returned (err : Option String) (s : σ) : LoopResult σ
  | blocked (s : σ) : LoopResult σ
  | panicked (s : σ) : LoopResult σ

/-! ## Signature store (`store.go`) -/

structure Storer where
  Store : List SignedRequest
  Track : List PendingRequest
  Signatures : GoMap String

structure Retriever where
  Signatures : GoMap String
  RequestId : String

/-- One iteration of the loop of `Storer.StoreSignedRequests`, with the cancellation state of the
context and the reading of `time.Now()`. -/
def Storer.iteration (ctxDone : Bool) (now : Time) (storer : Storer) : Iter Storer :=
  if ctxDone then .returned none storer
  else
    match storer.Store with
    | [] => .blocked storer
    | signedRequest :: rest =>
      if signedRequest.Add then
        match storer.Signatures.store signedRequest.RequestId signedRequest.Signature with
        | none => .panicked { storer with Store := rest }
        | some signatures =>
          let pendingRequest : PendingRequest :=
            { RequestId := signedRequest.RequestId, Message := "",
              TimeAdded := now, TimeEstimate := 0.0, Add := false }
          .next { Store := rest, Track := storer.Track ++ [pendingRequest],
                  Signatures := signatures }
      else
        .next { storer with Store := rest,
                            Signatures := storer.Signatures.delete signedRequest.RequestId }

/-- The method `Storer.StoreSignedRequests`, run for one iteration per element of `env`, each
giving the cancellation state and the clock reading of that iteration. -/
def Storer.StoreSignedRequests : List (Bool × Time) → Storer → LoopResult Storer
  | [], storer => .running storer
  | (ctxDone, now) :: env, storer =>
    match storer.iteration ctxDone now with
    | .next s => Storer.StoreSignedRequests env s
    | .returned err s => .returned err s
    | .blocked s => .blocked s
    | .panicked s => .panicked s

/-- The method `Retriever.RetrieveSignature`: the value sent on `Response`, if any, and the
returned error. -/
def Retriever.RetrieveSignature (retriever : Retriever) : Option String × Option String :=
  match retriever.Signatures.lookup retriever.RequestId with
  | some signature => (some signature, none)
  | none => (none, some "Signature not available yet.")

/-! ## Pending tracker (`track.go`) -/

structure Tracker where
  Track : List PendingRequest
  Requests : GoMap PendingRequest

/-- One iteration of the loop of `Tracker.TrackPendingRequests`. -/
def Tracker.iteration (ctxDone : Bool) (tracker : Tracker) : Iter Tracker :=
  if ctxDone then .returned none tracker
  else
    match tracker.Track with
    | [] => .blocked tracker
    | pendingRequest :: rest =>
      if pendingRequest.Add then
        match tracker.Requests.store pendingRequest.RequestId pendingRequest with
        | none => .panicked { tracker with Track := rest }
        | some requests => .next { Track := rest, Requests := requests }
      else
        .next { Track := rest, Requests := tracker.Requests.delete pendingRequest.RequestId }

/-- The method `Tracker.TrackPendingRequests`, run for one iteration per element of `env`, each
giving the cancellation state of the context at the start of that iteration. -/
def Tracker.TrackPendingRequests : List Bool → Tracker → LoopResult Tracker
  | [], tracker => .running tracker
  | ctxDone :: env, tracker =>
    match tracker.iteration ctxDone with
    | .next t => Tracker.TrackPendingRequests env t
    | .returned err t => .returned err t
    | .blocked t => .blocked t
    | .panicked t => .panicked t

/-! ## HTTP handlers (`handlers.go`) -/

structure RequestFulfilled where
  Body : String
  Signature : String
  StatusCode : Nat
  deriving DecidableEq, Repr

structure RequestProcessing where
  Body : String
  RequestId : String
  TimeEstimate : ℚ
  StatusCode : Nat
  deriving DecidableEq, Repr

structure RequestDenied where
  Body : String
  StatusCode : Nat
  deriving DecidableEq, Repr

/-- The response written by a handler: the header status and the marshalled body value. -/
inductive Response where
  | fulfilled (status : Nat) (body : RequestFulfilled) : Response
  | processing (status : Nat) (body : RequestProcessing) : Response
  | denied (status : Nat) (body : RequestDenied) : Response
  deriving DecidableEq, Repr

/-- The status passed to `WriteHeader`. -/
def Response.status : Response → Nat
  | .fulfilled s _ => s
  | .processing s _ => s
  | .denied s _ => s

def StatusOK : Nat := 200

def StatusAccepted : Nat := 202

def StatusNotFound : Nat := 404

def StatusServiceUnavailable : Nat := 503

/-- The retry of `Retriever.RetrieveSignature` by `backoff.Retry`, one call per observed content
of the signature map, until a call succeeds or the elapsed-time budget ends the list. -/
def retryRetrieve (requestId : String) : List (GoMap String) → String × Option String
  | [] => ("", some "Signature not available yet.")
  | signatures :: later =>
    match Retriever.RetrieveSignature { Signatures := signatures, RequestId := requestId } with
    | (some signature, _) => (signature, none)
    | (none, _) => retryRetrieve requestId later

/-- The function `retrieveSignature`: the first poll reads the current signature map, the later
polls read the contents `later` left by the store actor in the meantime. -/
def retrieveSignature (application : Application) (requestId : String)
    (later : List (GoMap String)) : String × Option String :=
  retryRetrieve requestId (application.Signatures :: later)

/-- The handler `Application.newRequestHandler`, given the generated UUID, the `message` query
parameter, the reading of `time.Now()` and the signature-map contents seen by later polls. -/
def Application.newRequestHandler (application : Application) (requestId message : String)
    (now : Time) (later : List (GoMap String)) : Application × Response :=
  let request : Request := { RequestId := requestId, Message := message }
  let accepted (application : Application) : Application × Response :=
    let timing := application.GetEncryptionTiming now
    let application :=
      { application with
        Track := application.Track ++ [{ toRequest := request, toTiming := timing, Add := true }] }
    match retrieveSignature application requestId later with
    | (_, some _) =>
      (application,
        .processing StatusAccepted
          { Body := "Request Recieved. Please check back according to the time estimate (minutes).",
            RequestId := requestId,
            TimeEstimate := timing.TimeEstimate,
            StatusCode := StatusAccepted })
    | (signature, none) =>
      ({ application with
          Store := application.Store ++
            [{ RequestId := requestId, Signature := signature, Add := false }] },
        .fulfilled StatusOK
          { Body := "Request processed successfully!",
            Signature := signature,
            StatusCode := StatusOK })
  match application.Encrypt.trySend request with
  | .sent ch => accepted { application with Encrypt := ch }
  | .handedOff ch _ => accepted { application with Encrypt := ch }
  | .wouldBlock =>
    (application,
      .denied StatusServiceUnavailable
        { Body := "The request could not be processed, server is at capacity. Please try again shortly.",
          StatusCode := StatusServiceUnavailable })

/-- The handler `Application.currentRequestHandler`, given the `requestId` path parameter and
the reading of the clock used by `time.Since`. -/
def Application.currentRequestHandler (application : Application) (requestId : String)
    (now : Time) : Application × Response :=
  match application.Signatures.lookup requestId with
  | none =>
    match application.Requests.lookup requestId with
    | some request =>
      let timeElapsed := Since now request.TimeAdded
      let minutesRemaining := request.TimeEstimate - timeElapsed.Minutes
      let minutesRemaining := if minutesRemaining < 0 then 5 else minutesRemaining
      (application,
        .processing StatusAccepted
          { Body := "Request is still being processed. Please check back according to the time estimate (minutes).",
            RequestId := requestId,
            TimeEstimate := minutesRemaining,
            StatusCode := StatusAccepted })
    | none =>
      (application,
        .denied StatusNotFound
          { Body := "The requestId is not recognized. Please use the 'crypto/sign' endpoint to generate a new request.",
            StatusCode := StatusNotFound })
  | some signature =>
    ({ application with
        Store := application.Store ++
          [{ RequestId := requestId, Signature := signature, Add := false }] },
      .fulfilled StatusOK
        { Body := "Request processed successfully!",
          Signature := signature,
          StatusCode := StatusOK })

/-! ## Worker pool (`encrypt.go`) -/

structure EncryptorHandler where
  Encrypt : Chan Request
  Store : List SignedRequest
  Encryptors : Chan Unit

/-- What one attempt of `encryptor` meets: `http.NewRequest` fails, `client.Do` fails, or a
response arrives with its status code and its body, `none` when the body cannot be read. -/
inductive Attempt where
  | requestError : Attempt
  | transportError : Attempt
  | response (statusCode : Nat) (body : Option String) : Attempt
  deriving DecidableEq, Repr

/-- The attempts in which the signing client was called and did not yield a signature. -/
def Attempt.clientFailure : Attempt → Bool
  | .requestError => false
  | .transportError => true
  | .response statusCode body => statusCode != 200 || body.isNone

/-- A worker goroutine: the handler it reports to and the requests it has passed to the signing
client so far. -/
structure Worker where
  scheduler : EncryptorHandler
  calls : List Request

/-- The function `encryptor`: one call of the signing service and, on success, the store
command. -/
def encryptor (worker : Worker) (request : Request) (attempt : Attempt) :
    Worker × Option String :=
  match attempt with
  | .requestError => (worker, some "Error forming HTTP request")
  | .transportError =>
    ({ worker with calls := worker.calls ++ [request] }, some "Error response from HTTP request")
  | .response statusCode body =>
    let worker := { worker with calls := worker.calls ++ [request] }
    if statusCode ≠ StatusOK then
      (worker, some "Did not recieve a OK response from HTTP request")
    else
      match body with
      | none => (worker, some "Failed to read response body.")
      | some signature =>
        ({ worker with
            scheduler := { worker.scheduler with
              Store := worker.scheduler.Store ++
                [{ RequestId := request.RequestId, Signature := signature, Add := true }] } },
          none)

/-- The function `encryptorParent`, run over the outcomes of the successive attempts; the list
running out leaves the worker retrying. -/
def encryptorParent (request : Request) : List Attempt → Worker → LoopResult Worker
  | [], worker => .running worker
  | attempt :: attempts, worker =>
    match encryptor worker request attempt with
    | (worker, some _) => encryptorParent request attempts worker
    | (worker, none) =>
      match worker.scheduler.Encryptors.trySend () with
      | .sent ch => .returned none { worker with scheduler := { worker.scheduler with Encryptors := ch } }
      | .handedOff ch _ =>
        .returned none { worker with scheduler := { worker.scheduler with Encryptors := ch } }
      | .wouldBlock => .blocked worker

/-- The blocking sends of `InstantiateEncryptors`, `n` of them. -/
def fillEncryptors : Nat → Chan Unit → LoopResult (Chan Unit)
  | 0, encryptors => .returned none encryptors
  | n + 1, encryptors =>
    match encryptors.trySend () with
    | .sent ch => fillEncryptors n ch
    | .handedOff ch _ => fillEncryptors n ch
    | .wouldBlock => .blocked encryptors

/-- The function `InstantiateEncryptors`. -/
def InstantiateEncryptors (maxNumberOfEncryptors : Int) (encryptors : Chan Unit) :
    LoopResult (Chan Unit) :=
  fillEncryptors maxNumberOfEncryptors.toNat encryptors

/-- The dispatcher with the goroutines it has started: the request it has received and not yet
dispatched, and the requests of the running `encryptorParent` workers. -/
structure Pool where
  scheduler : EncryptorHandler
  held : Option Request
  workers : List Request

/-- The receive `<-scheduler.Encryptors` followed by `go encryptorParent(scheduler, request)`. -/
def Pool.dispatch (pool : Pool) (request : Request) : Iter Pool :=
  match pool.scheduler.Encryptors.buf with
  | [] => .blocked { pool with held := some request }
  | _ :: tokens =>
    .next { scheduler := { pool.scheduler with
              Encryptors := { pool.scheduler.Encryptors with buf := tokens } },
            held := none,
            workers := pool.workers ++ [request] }

/-- One iteration of the loop of `EncryptorHandler.HandleEncryptRequests`; a pool holding a
request resumes the iteration that was waiting for a token. -/
def Pool.iteration (ctxDone : Bool) (pool : Pool) : Iter Pool :=
  match pool.held with
  | some request => pool.dispatch request
  | none =>
    if ctxDone then .returned none pool
    else
      match pool.scheduler.Encrypt.buf with
      | [] => .blocked pool
      | request :: rest =>
        Pool.dispatch
          { pool with scheduler := { pool.scheduler with
              Encrypt := { pool.scheduler.Encrypt with buf := rest } } }
          request

/-- The method `EncryptorHandler.HandleEncryptRequests`, run for one iteration per element of
`env`, each giving the cancellation state of the context at the start of that iteration. -/
def Pool.HandleEncryptRequests : List Bool → Pool → LoopResult Pool
  | [], pool => .running pool
  | ctxDone :: env, pool =>
    match pool.iteration ctxDone with
    | .next p => Pool.HandleEncryptRequests env p
    | .returned err p => .returned err p
    | .blocked p => .blocked p
    | .panicked p => .panicked p

/-- One step of the pool: the dispatcher runs an iteration, or the worker of a request runs to
its end over some outcomes of its attempts and gives its token back. -/
inductive Pool.Step : Pool → Pool → Prop where
  | dispatch (ctxDone : Bool) (pool next : Pool) :
      pool.iteration ctxDone = .next next → Pool.Step pool next
  | wait (ctxDone : Bool) (pool next : Pool) :
      pool.iteration ctxDone = .blocked next → Pool.Step pool next
  | complete (pool : Pool) (request : Request) (attempts : List Attempt) (worker : Worker) :
      request ∈ pool.workers →
      encryptorParent request attempts { scheduler := pool.scheduler, calls := [] }
        = .returned none worker →
      Pool.Step pool
        { scheduler := worker.scheduler, held := pool.held,
          workers := pool.workers.erase request }

/-- The states of the pool reachable after `InstantiateEncryptors(max, encryptors)` on an empty
channel of capacity `max`, as set up in `main`. -/
inductive Pool.Reachable (max : Nat) : Pool → Prop where
  | init (encrypt : Chan Request) (store : List SignedRequest) (encryptors : Chan Unit) :
      InstantiateEncryptors max { cap := max, buf := [], recvReady := false }
        = .returned none encryptors →
      Pool.Reachable max
        { scheduler := { Encrypt := encrypt, Store := store, Encryptors := encryptors },
          held := none, workers := [] }
  | step (pool next : Pool) :
      Pool.Reachable max pool → Pool.Step pool next → Pool.Reachable max next

/-! ## Persistence (`store.go`, `track.go`, `main.go`) -/

/-- File contents, `[]byte`. -/
abbrev Bytes := List UInt8

/-- The files readable by `os.ReadFile`, by path; `none` is a path that cannot be read. -/
abbrev FileSystem := String → Option Bytes

/-- The call `os.ReadFile(path)`. -/
def FileSystem.ReadFile (fs : FileSystem) (path : String) : Except String Bytes :=
  match fs path with
  | some content => .ok content
  | none => .error "open: no such file or directory"

/-- The call `os.WriteFile(path, data, 0644)`, which the environment lets succeed or not; a
failed write is taken to leave the file as it was. -/
def FileSystem.WriteFile (fs : FileSystem) (path : String) (data : Bytes) (succeeds : Bool) :
    FileSystem × Option String :=
  if succeeds then (fun p => if p = path then some data else fs p, none)
  else (fs, some "write failed")

/-- The two functions of `encoding/json` used on a map with values in `V`: `MarshalIndent` of
the map, and `Unmarshal` of bytes into a nil map variable, giving the variable afterwards. -/
structure Json (V : Type) where
  MarshalIndent : GoMap V → Except String Bytes
  Unmarshal : Bytes → Except String (GoMap V)

/-- The function `InstantiateSignatures`. -/
def InstantiateSignatures (fs : FileSystem) (json : Json String)
    (signaturesPersistenceLocation : String) : GoMap String :=
  match fs.ReadFile signaturesPersistenceLocation with
  | .error _ => GoMap.make
  | .ok signaturesBytes =>
    if signaturesBytes.length > 0 then
      match json.Unmarshal signaturesBytes with
      | .error _ => GoMap.make
      | .ok signatures => signatures
    else GoMap.make

/-- The entries visited by `range` over a map, in the order of the representation, which stands
for the unspecified iteration order. -/
def GoMap.range {V : Type} : GoMap V → List (String × V)
  | .nil => []
  | .mk m => m.entries.map (fun e => (e.1, e.2))

/-- Outcome of `InstantiateCurrentRequests`: it returns the map, or stays blocked on a send. -/
inductive Loaded where
  | returned (requests : GoMap PendingRequest) (encrypt : Chan Request) : Loaded
  | blocked (encrypt : Chan Request) : Loaded

/-- The blocking sends `encrypt <- Request{...}` of the `range` loop, one per entry. -/
def replay : List (String × PendingRequest) → Chan Request → Option (Chan Request)
  | [], encrypt => some encrypt
  | (requestId, pendingRequest) :: entries, encrypt =>
    match encrypt.trySend { RequestId := requestId, Message := pendingRequest.Message } with
    | .sent ch => replay entries ch
    | .handedOff ch _ => replay entries ch
    | .wouldBlock => none

/-- The function `InstantiateCurrentRequests`. -/
def InstantiateCurrentRequests (fs : FileSystem) (json : Json PendingRequest)
    (encrypt : Chan Request) (pendingPersistenceLocation : String) : Loaded :=
  match fs.ReadFile pendingPersistenceLocation with
  | .error _ => .returned GoMap.make encrypt
  | .ok pendingBytes =>
    if pendingBytes.length > 0 then
      match json.Unmarshal pendingBytes with
      | .error _ => .returned GoMap.make encrypt
      | .ok pending =>
        match replay pending.range encrypt with
        | some ch => .returned pending ch
        | none => .blocked encrypt
    else .returned GoMap.make encrypt

structure Config where
  MaxRequestQueueSize : Int
  MaxSynthesiaRequestsPerMinute : Int
  ServerPort : String
  LogLevel : String
  SignaturesPersistenceLocation : String
  PendingPersistenceLocation : String

/-- The function `SetConfigs`, given the parsed values of the four flags. -/
def SetConfigs (maxRequestQueueSize maxSynthesiaRequestsPerMinute : Int)
    (serverPort logLevel : String) : Config :=
  { MaxRequestQueueSize := maxRequestQueueSize,
    MaxSynthesiaRequestsPerMinute := maxSynthesiaRequestsPerMinute,
    ServerPort := serverPort,
    LogLevel := logLevel,
    SignaturesPersistenceLocation := "./internal/persistence/signatures.json",
    PendingPersistenceLocation := "./internal/persistence/pending.json" }

/-- The function `SaveState`, with the outcome the environment gives to each of the two
writes. -/
def SaveState (signatures : GoMap String) (pendingRequests : GoMap PendingRequest)
    (config : Config) (jsonSignatures : Json String) (jsonPending : Json PendingRequest)
    (fs : FileSystem) (signaturesWritten pendingWritten : Bool) : FileSystem :=
  let fs :=
    match jsonSignatures.MarshalIndent signatures with
    | .error _ => fs
    | .ok signaturesBytes =>
      (fs.WriteFile config.SignaturesPersistenceLocation signaturesBytes signaturesWritten).1
  match jsonPending.MarshalIndent pendingRequests with
  | .error _ => fs
  | .ok pendingRequestsBytes =>
    (fs.WriteFile config.PendingPersistenceLocation pendingRequestsBytes pendingWritten).1

/-! ## The pipeline assembled (`main.go`) -/

/-- The channels, maps and goroutines that `main` creates and shares between the handlers, the
dispatcher with its workers, the store actor and the tracker actor. -/
structure System where
  Encrypt : Chan Request
  Store : List SignedRequest
  Track : List PendingRequest
  Signatures : GoMap String
  Requests : GoMap PendingRequest
  Encryptors : Chan Unit
  held : Option Request
  workers : List Request
  ServerPort : String

/-- The `app.Application` built in `main`. -/
def System.toApplication (sys : System) : Application :=
  { Encrypt := sys.Encrypt, Store := sys.Store, Signatures := sys.Signatures,
    Track := sys.Track, Requests := sys.Requests, ServerPort := sys.ServerPort }

/-- The shared state after a handler has run on the application. -/
def System.withApplication (sys : System) (application : Application) : System :=
  { sys with Encrypt := application.Encrypt, Store := application.Store,
             Signatures := application.Signatures, Track := application.Track,
             Requests := application.Requests }

/-- The `app.EncryptorHandler` built in `main`. -/
def System.toEncryptorHandler (sys : System) : EncryptorHandler :=
  { Encrypt := sys.Encrypt, Store := sys.Store, Encryptors := sys.Encryptors }

/-- A request to `/crypto/sign` served by `newRequestHandler`. -/
def System.newRequest (sys : System) (requestId message : String) (now : Time)
    (later : List (GoMap String)) : System × Response :=
  let result := sys.toApplication.newRequestHandler requestId message now later
  (sys.withApplication result.1, result.2)

/-- A request to `/crypto/sign/request/{requestId}` served by `currentRequestHandler`. -/
def System.query (sys : System) (requestId : String) (now : Time) : System × Response :=
  let result := sys.toApplication.currentRequestHandler requestId now
  (sys.withApplication result.1, result.2)

/-- The tracker applies the next command of `Track`. -/
def System.track (sys : System) : Option System :=
  match Tracker.iteration false { Track := sys.Track, Requests := sys.Requests } with
  | .next tracker => some { sys with Track := tracker.Track, Requests := tracker.Requests }
  | _ => none

/-- The store actor applies the next command of `Store`. -/
def System.store (sys : System) (now : Time) : Option System :=
  match Storer.iteration false now
      { Store := sys.Store, Track := sys.Track, Signatures := sys.Signatures } with
  | .next storer =>
    some { sys with Store := storer.Store, Track := storer.Track,
                    Signatures := storer.Signatures }
  | _ => none

/-- The dispatcher takes the next request and a token and starts a worker. -/
def System.dispatch (sys : System) : Option System :=
  match Pool.iteration false
      { scheduler := sys.toEncryptorHandler, held := sys.held, workers := sys.workers } with
  | .next pool =>
    some { sys with Encrypt := pool.scheduler.Encrypt, Store := pool.scheduler.Store,
                    Encryptors := pool.scheduler.Encryptors, held := pool.held,
                    workers := pool.workers }
  | _ => none

/-- The worker of `request` makes one attempt with `encryptor`. -/
def System.sign (sys : System) (request : Request) (attempt : Attempt) : Option System :=
  if request ∈ sys.workers then
    let result := encryptor { scheduler := sys.toEncryptorHandler, calls := [] } request attempt
    some { sys with Store := result.1.scheduler.Store }
  else none

/-- The dispatcher receives the next request and is left waiting for a token. -/
def System.await (sys : System) : Option System :=
  match Pool.iteration false
      { scheduler := sys.toEncryptorHandler, held := sys.held, workers := sys.workers } with
  | .blocked pool =>
    some { sys with Encrypt := pool.scheduler.Encrypt, Store := pool.scheduler.Store,
                    Encryptors := pool.scheduler.Encryptors, held := pool.held,
                    workers := pool.workers }
  | _ => none

/-- The worker of `request` ends: the send `scheduler.Encryptors <- struct{}{}` that closes
`encryptorParent`. -/
def System.release (sys : System) (request : Request) : Option System :=
  if request ∈ sys.workers then
    match sys.Encryptors.trySend () with
    | .sent ch => some { sys with Encryptors := ch, workers := sys.workers.erase request }
    | .handedOff ch _ =>
      some { sys with Encryptors := ch, workers := sys.workers.erase request }
    | .wouldBlock => none
  else none

/-! ## Executions -/

/-- A step of the retrieval protocol: a status query is served, or the store actor applies the
next command of `Store`. -/
inductive System.RetrievalStep : System → System → Prop where
  | query (sys : System) (requestId : String) (now : Time) :
      System.RetrievalStep sys (sys.query requestId now).1
  | store (sys next : System) (now : Time) :
      sys.store now = some next → System.RetrievalStep sys next

/-- The pipeline in execution: the shared state, the requests whose handler has put them on
`Encrypt` and has not yet sent their command on `Track`, and the commands the tracker has
applied so far, oldest first. -/
structure Pipeline where
  sys : System
  announcing : List Request
  applied : List PendingRequest

/-- The pipeline as `main` starts it with no snapshot to load: empty maps, an empty admission
queue of the given capacity, the pool of tokens, no command in flight. -/
def Pipeline.start (capacity : Nat) (encryptors : Chan Unit) (port : String) : Pipeline :=
  { sys := { Encrypt := { cap := capacity, buf := [], recvReady := false },
             Store := [], Track := [], Signatures := GoMap.make, Requests := GoMap.make,
             Encryptors := encryptors, held := none, workers := [], ServerPort := port },
    announcing := [], applied := [] }

/-- The steps of the actors and of the status handler: the dispatcher starts a worker or is
left waiting for a token, a worker makes an attempt or ends, the store actor and the tracker
apply their next command, a status query is served. -/
inductive Pipeline.ActorStep : Pipeline → Pipeline → Prop where
  | dispatch (p : Pipeline) (next : System) :
      p.sys.dispatch = some next → Pipeline.ActorStep p { p with sys := next }
  | await (p : Pipeline) (next : System) :
      p.sys.await = some next → Pipeline.ActorStep p { p with sys := next }
  | sign (p : Pipeline) (request : Request) (attempt : Attempt) (next : System) :
      p.sys.sign request attempt = some next → Pipeline.ActorStep p { p with sys := next }
  | release (p : Pipeline) (request : Request) (next : System) :
      p.sys.release request = some next → Pipeline.ActorStep p { p with sys := next }
  | store (p : Pipeline) (now : Time) (next : System) :
      p.sys.store now = some next → Pipeline.ActorStep p { p with sys := next }
  | track (p : Pipeline) (command : PendingRequest) (rest : List PendingRequest)
      (next : System) :
      p.sys.Track = command :: rest → p.sys.track = some next →
      Pipeline.ActorStep p
        { sys := next, announcing := p.announcing, applied := p.applied ++ [command] }
  | query (p : Pipeline) (requestId : String) (now : Time) :
      Pipeline.ActorStep p { p with sys := (p.sys.query requestId now).1 }

/-- The steps of the pipeline with the two sends of `newRequestHandler` taken one at a time:
the send on `Encrypt`, and later the send on `Track` with the timing read at that moment. -/
inductive Pipeline.Step : Pipeline → Pipeline → Prop where
  | actor (p q : Pipeline) : Pipeline.ActorStep p q → Pipeline.Step p q
  | enqueue (p : Pipeline) (requestId message : String) (ch : Chan Request) :
      p.sys.Encrypt.trySend { RequestId := requestId, Message := message } = .sent ch →
      Pipeline.Step p
        { p with sys := { p.sys with Encrypt := ch },
                 announcing := p.announcing ++ [{ RequestId := requestId, Message := message }] }
  | announce (p : Pipeline) (request : Request) (now : Time) :
      request ∈ p.announcing →
      Pipeline.Step p
        { p with
          sys := { p.sys with
            Track := p.sys.Track ++
              [{ toRequest := request,
                 toTiming := p.sys.toApplication.GetEncryptionTiming now, Add := true }] },
          announcing := p.announcing.erase request }

/-- The steps of the pipeline with every run of `newRequestHandler` taken as one step. -/
inductive Pipeline.AtomicStep : Pipeline → Pipeline → Prop where
  | actor (p q : Pipeline) : Pipeline.ActorStep p q → Pipeline.AtomicStep p q
  | admission (p : Pipeline) (requestId message : String) (now : Time)
      (later : List (GoMap String)) :
      Pipeline.AtomicStep p
        { p with sys := (p.sys.newRequest requestId message now later).1 }

/-- The pipeline as `main` starts it: the two maps are those the loaders return, the admission
queue, made with the configured capacity, holds the requests replayed by
`InstantiateCurrentRequests`, and no command is in flight. There is no such state, `none`, when
the configured capacity is negative, where `make` panics, or when the replay stays blocked. -/
def Pipeline.boot (fs : FileSystem) (jsonSignatures : Json String)
    (jsonPending : Json PendingRequest) (config : Config) (encryptors : Chan Unit) :
    Option Pipeline :=
  let signatures := InstantiateSignatures fs jsonSignatures config.SignaturesPersistenceLocation
  if config.MaxRequestQueueSize < 0 then none
  else
    match InstantiateCurrentRequests fs jsonPending
        { cap := config.MaxRequestQueueSize.toNat, buf := [], recvReady := false }
        config.PendingPersistenceLocation with
    | .returned requests encrypt =>
      some { sys := { Encrypt := encrypt, Store := [], Track := [], Signatures := signatures,
                      Requests := requests, Encryptors := encryptors, held := none,
                      workers := [], ServerPort := config.ServerPort },
             announcing := [], applied := [] }
    | .blocked _ => none

/-- An insertion for `requestId` occurs among the track commands `log`, or the id is one of
the `known` ids, those of the pending map loaded at startup. -/
def announcedIn (known : String → Prop) (log : List PendingRequest) (requestId : String) :
    Prop :=
  (∃ u ∈ log, u.Add = true ∧ u.RequestId = requestId) ∨ known requestId

/-- Every removal among the track commands `log` comes after an insertion for the same id,
or is for a `known` id. -/
def orderedLog (known : String → Prop) (log : List PendingRequest) : Prop :=
  ∀ pre c post, log = pre ++ c :: post → c.Add = false → announcedIn known pre c.RequestId

/-- The invariant of the pipeline under atomic admissions, on the track commands applied or
sent so far: every request in the queue, with the dispatcher or with a worker, and every
insertion waiting on `Store`, has its insertion among them or a `known` id, and they are
ordered. -/
structure Pipeline.Ordered (known : String → Prop) (p : Pipeline) : Prop where
  queued : ∀ r ∈ p.sys.Encrypt.buf, announcedIn known (p.applied ++ p.sys.Track) r.RequestId
  held : ∀ r, p.sys.held = some r →
    announcedIn known (p.applied ++ p.sys.Track) r.RequestId
  workers : ∀ r ∈ p.sys.workers, announcedIn known (p.applied ++ p.sys.Track) r.RequestId
  signed : ∀ c ∈ p.sys.Store, c.Add = true →
    announcedIn known (p.applied ++ p.sys.Track) c.RequestId
  ordered : orderedLog known (p.applied ++ p.sys.Track)

/-! ## Concrete states used to instantiate the theorems -/

/-- An application with an unbuffered admission queue and no dispatcher waiting on it. -/
def idleUnbuffered : Application :=
  { Encrypt := { cap := 0, buf := [], recvReady := false },
    Store := [], Signatures := GoMap.make, Track := [], Requests := GoMap.make,
    ServerPort := ":8080" }

/-- An application whose admission queue of capacity two holds one request. -/
def halfFull : Application :=
  { Encrypt := { cap := 2, buf := [{ RequestId := "first", Message := "hello" }],
                 recvReady := false },
    Store := [], Signatures := GoMap.make, Track := [], Requests := GoMap.make,
    ServerPort := ":8080" }

/-- A pending request estimated at seven minutes, added at instant 0. -/
def jobSeven : PendingRequest :=
  { RequestId := "job", Message := "message", TimeAdded := 0, TimeEstimate := 7, Add := true }

/-- A pending request whose estimate is zero minutes, added at instant 0. -/
def jobExpired : PendingRequest :=
  { RequestId := "job", Message := "message", TimeAdded := 0, TimeEstimate := 0, Add := true }

/-- An application whose only pending request is `jobSeven`. -/
def pendingSeven : Application :=
  { Encrypt := { cap := 1, buf := [], recvReady := false },
    Store := [], Signatures := GoMap.make, Track := [],
    Requests := .mk (AList.insert "job" jobSeven ∅),
    ServerPort := ":8080" }

/-- An application whose only pending request is `jobExpired`. -/
def pendingExpired : Application :=
  { Encrypt := { cap := 1, buf := [], recvReady := false },
    Store := [], Signatures := GoMap.make, Track := [],
    Requests := .mk (AList.insert "job" jobExpired ∅),
    ServerPort := ":8080" }

/-- An application holding the signature of one completed request. -/
def completedOne : Application :=
  { Encrypt := { cap := 1, buf := [], recvReady := false },
    Store := [], Signatures := .mk (AList.insert "job" "signature" ∅), Track := [],
    Requests := GoMap.make,
    ServerPort := ":8080" }

/-- A pool of two tokens, filled, with one request waiting in the queue. -/
def poolAtStart : Pool :=
  { scheduler :=
      { Encrypt := { cap := 2, buf := [{ RequestId := "job", Message := "message" }],
                     recvReady := false },
        Store := [],
        Encryptors := { cap := 2, buf := [(), ()], recvReady := false } },
    held := none, workers := [] }

/-- The pool `poolAtStart` after the dispatcher has started a worker for the request. -/
def poolBusy : Pool :=
  { scheduler :=
      { Encrypt := { cap := 2, buf := [], recvReady := false },
        Store := [],
        Encryptors := { cap := 2, buf := [()], recvReady := false } },
    held := none, workers := [{ RequestId := "job", Message := "message" }] }

/-- The two bytes of the JSON document `{}`. -/
def emptyObject : Bytes := [123, 125]

/-- A stand-in for `encoding/json` that knows one document: `content` is the text of `m`, and
every other input is rejected. -/
def jsonFixed {V : Type} (content : Bytes) (m : GoMap V) : Json V :=
  { MarshalIndent := fun _ => .ok content,
    Unmarshal := fun input => if input = content then .ok m else .error "invalid character" }

/-- A file system without any readable file. -/
def noFiles : FileSystem := fun _ => none

/-- A file system whose only readable file is `path`, holding `content`. -/
def oneFile (path : String) (content : Bytes) : FileSystem :=
  fun p => if p = path then some content else none

/-- An empty admission queue of capacity one. -/
def emptyQueue : Chan Request := { cap := 1, buf := [], recvReady := false }

/-- A system in which the store command of one signed request waits to be applied. -/
def signedOnce : System :=
  { Encrypt := emptyQueue,
    Store := [{ RequestId := "job", Signature := "signature", Add := true }],
    Track := [], Signatures := GoMap.make, Requests := GoMap.make,
    Encryptors := { cap := 1, buf := [], recvReady := false },
    held := none, workers := [{ RequestId := "job", Message := "message" }],
    ServerPort := ":8080" }

/-- A system holding one signature, with the removal sent by a status query waiting to be
applied. -/
def retrievedOnce : System :=
  { Encrypt := emptyQueue,
    Store := [{ RequestId := "job", Signature := "signature", Add := false }],
    Track := [], Signatures := .mk (AList.insert "job" "signature" ∅), Requests := GoMap.make,
    Encryptors := { cap := 1, buf := [()], recvReady := false },
    held := none, workers := [], ServerPort := ":8080" }

/-- The four bytes of the JSON document `null`. -/
def nullDocument : Bytes := [110, 117, 108, 108]

/-- The track command of a first request, admitted at instant 0 into an empty queue. -/
def firstUpsert : PendingRequest :=
  { RequestId := "a", Message := "first", TimeAdded := 0, TimeEstimate := 1, Add := true }

/-- The track command of a second request, admitted at instant 0 into an empty queue. -/
def secondUpsert : PendingRequest :=
  { RequestId := "b", Message := "second", TimeAdded := 0, TimeEstimate := 1, Add := true }

/-- The pipeline of capacity one and one token after a first request has been admitted,
tracked and dispatched, and a second one admitted and tracked: the second request fills the
queue while the first is with its worker. -/
def overfull : Pipeline :=
  { sys :=
      { Encrypt := { cap := 1, buf := [{ RequestId := "b", Message := "second" }],
                     recvReady := false },
        Store := [], Track := [], Signatures := GoMap.make,
        Requests := .mk (AList.insert "b" secondUpsert (AList.insert "a" firstUpsert ∅)),
        Encryptors := { cap := 1, buf := [], recvReady := false },
        held := none, workers := [{ RequestId := "a", Message := "first" }],
        ServerPort := ":8080" },
    announcing := [],
    applied := [firstUpsert, secondUpsert] }

/-- Bytes standing for the text of a saved pending snapshot. -/
def pendingDocument : Bytes := [123, 46, 46, 46, 125]

/-- The removal that the store actor forwards for the request `job`, at instant 0. -/
def jobRemoval : PendingRequest :=
  { RequestId := "job", Message := "", TimeAdded := 0, TimeEstimate := 0.0, Add := false }

/-- The insertion that `newRequestHandler` sends for the request `job` at instant 0 when the
queue is empty again. -/
def jobUpsert : PendingRequest :=
  { RequestId := "job", Message := "message", TimeAdded := 0, TimeEstimate := 1, Add := true }

/-- The pipeline of capacity one and one token after the request `job` has been put on the
queue, dispatched, signed and stored, its removal applied by the tracker, and only then its
insertion sent by the handler and applied. -/
def overtaken : Pipeline :=
  { sys :=
      { Encrypt := { cap := 1, buf := [], recvReady := false },
        Store := [], Track := [],
        Signatures := .mk (AList.insert "job" "signature" ∅),
        Requests := .mk (AList.insert "job" jobUpsert (AList.erase "job" ∅)),
        Encryptors := { cap := 1, buf := [], recvReady := false },
        held := none, workers := [{ RequestId := "job", Message := "message" }],
        ServerPort := ":8080" },
    announcing := [],
    applied := [jobRemoval, jobUpsert] }

/-- The pipeline of capacity one and one token after the request `job` has been admitted,
tracked, dispatched, signed and stored, and its removal applied by the tracker. -/
def completedRun : Pipeline :=
  { sys :=
      { Encrypt := { cap := 1, buf := [], recvReady := false },
        Store := [], Track := [],
        Signatures := .mk (AList.insert "job" "signature" ∅),
        Requests := .mk (AList.erase "job" (AList.insert "job" jobUpsert ∅)),
        Encryptors := { cap := 1, buf := [], recvReady := false },
        held := none, workers := [{ RequestId := "job", Message := "message" }],
        ServerPort := ":8080" },
    announcing := [],
    applied := [jobUpsert, jobRemoval] }

/-- The pipeline of capacity one and one token as `main` starts it from a pending snapshot
with the one entry `job`: the entry is in the pending map and its request is on the queue,
and no track command has been sent. -/
def recoveredStart : Pipeline :=
  { sys :=
      { Encrypt := { cap := 1, buf := [{ RequestId := "job", Message := "message" }],
                     recvReady := false },
        Store := [], Track := [], Signatures := GoMap.make,
        Requests := .mk (AList.insert "job" jobUpsert ∅),
        Encryptors := { cap := 1, buf := [()], recvReady := false },
        held := none, workers := [], ServerPort := ":8080" },
    announcing := [],
    applied := [] }

/-- The pipeline `recoveredStart` after the replayed request `job` has been dispatched, signed
and stored, and its removal applied by the tracker. -/
def recoveredRun : Pipeline :=
  { sys :=
      { Encrypt := { cap := 1, buf := [], recvReady := false },
        Store := [], Track := [],
        Signatures := .mk (AList.insert "job" "signature" ∅),
        Requests := .mk (AList.erase "job" (AList.insert "job" jobUpsert ∅)),
        Encryptors := { cap := 1, buf := [], recvReady := false },
        held := none, workers := [{ RequestId := "job", Message := "message" }],
        ServerPort := ":8080" },
    announcing := [],
    applied := [jobRemoval] }

/-! ## Auxiliary lemmas -/

theorem ceil_div_five (d : ℕ) :
    Int.ceil ((d : ℚ) / 5.0) = (((d + 4) / 5 : ℕ) : ℤ) := by
  have h5 : (5.0 : ℚ) = 5 := by norm_num
  rw [h5, Int.ceil_eq_iff]
  have h1 : 5 * ((d + 4) / 5) ≤ d + 4 := Nat.mul_div_le _ _
  have h2 : d + 4 < 5 * ((d + 4) / 5) + 5 := by
    have := Nat.lt_div_mul_add (a := d + 4) (b := 5) (by norm_num)
    omega
  generalize (d + 4) / 5 = z at h1 h2 ⊢
  have h1q : (5 : ℚ) * (z : ℚ) ≤ (d : ℚ) + 4 := by exact_mod_cast h1
  have h2q : (d : ℚ) ≤ 5 * (z : ℚ) := by
    have h3 : d ≤ 5 * z := by omega
    exact_mod_cast h3
  have hz : ((z : ℤ) : ℚ) = (z : ℚ) := by norm_cast
  rw [hz]
  constructor
  · rw [lt_div_iff₀ (by norm_num)]
    linarith
  · rw [div_le_iff₀ (by norm_num)]
    linarith

theorem timeEstimate_eq_nat (application : Application) (t : Time) :
    (application.GetEncryptionTiming t).TimeEstimate
      = ((max 1 ((application.Encrypt.buf.length + 4) / 5) : ℕ) : ℚ) := by
  simp only [Application.GetEncryptionTiming, Chan.len]
  rw [ceil_div_five]
  push_cast
  rfl

/-! ## Timing estimator -/

/-- Claim C1. For every queue depth `d = len(application.Encrypt)` and every time `t`,
`GetEncryptionTiming(t)` has `TimeAdded = t` and `TimeEstimate = max(1, ceil(d/5))`: the estimate
is the natural number `max 1 ((d+4)/5)`, the least `n ≥ 1` with `d ≤ 5 n`; depth 0 gives 1,
depth 35 gives 7 and depth 300 gives 60. -/
theorem GetEncryptionTiming_estimate (application : Application) (t : Time) (r : Request) :
    (application.GetEncryptionTiming t).TimeAdded = t ∧
    (application.GetEncryptionTiming t).TimeEstimate
      = max 1 ((Int.ceil ((application.Encrypt.buf.length : ℚ) / 5) : ℤ) : ℚ) ∧
    (∃ n : ℕ, (application.GetEncryptionTiming t).TimeEstimate = (n : ℚ) ∧
        1 ≤ n ∧ application.Encrypt.buf.length ≤ 5 * n ∧
        ∀ k : ℕ, 1 ≤ k → application.Encrypt.buf.length ≤ 5 * k → n ≤ k) ∧
    (({ application with Encrypt := { application.Encrypt with buf := [] } } :
        Application).GetEncryptionTiming t).TimeEstimate = 1 ∧
    (({ application with Encrypt := { application.Encrypt with buf := List.replicate 35 r } } :
        Application).GetEncryptionTiming t).TimeEstimate = 7 ∧
    (({ application with Encrypt := { application.Encrypt with buf := List.replicate 300 r } } :
        Application).GetEncryptionTiming t).TimeEstimate = 60 := by
  refine ⟨rfl, ?_, ?_, ?_, ?_, ?_⟩
  · simp only [Application.GetEncryptionTiming, Chan.len]
    norm_num
  · refine ⟨max 1 ((application.Encrypt.buf.length + 4) / 5),
      timeEstimate_eq_nat application t, le_max_left _ _, ?_, ?_⟩
    · have h := Nat.lt_div_mul_add (a := application.Encrypt.buf.length + 4) (b := 5)
        (by norm_num)
      have h2 := le_max_right 1 ((application.Encrypt.buf.length + 4) / 5)
      omega
    · intro k hk hd
      apply max_le hk
      have h := Nat.mul_div_le (application.Encrypt.buf.length + 4) 5
      omega
  · rw [timeEstimate_eq_nat]
    norm_num
  · rw [timeEstimate_eq_nat]
    norm_num
  · rw [timeEstimate_eq_nat]
    norm_num

/-! ## Admission -/

/-- Claim C2. When the admission queue already holds as many requests as its capacity (any
capacity, zero included) and no consumer is ready to receive, `newRequestHandler` answers 503 at
once and changes nothing: the queue, both maps and the commands sent on `Store` and `Track` are
as before. -/
theorem newRequestHandler_rejects_at_capacity (application : Application)
    (requestId message : String) (now : Time) (later : List (GoMap String))
    (hfull : application.Encrypt.buf.length = application.Encrypt.cap)
    (hidle : application.Encrypt.recvReady = false) :
    (application.newRequestHandler requestId message now later).2.status = 503 ∧
    (application.newRequestHandler requestId message now later).1.Encrypt
      = application.Encrypt ∧
    (application.newRequestHandler requestId message now later).1.Signatures
      = application.Signatures ∧
    (application.newRequestHandler requestId message now later).1.Requests
      = application.Requests ∧
    (application.newRequestHandler requestId message now later).1.Track = application.Track ∧
    (application.newRequestHandler requestId message now later).1.Store = application.Store := by
  have hsend : application.Encrypt.trySend ⟨requestId, message⟩ = .wouldBlock := by
    simp [Chan.trySend, hfull, hidle]
  simp [Application.newRequestHandler, hsend, Response.status, StatusServiceUnavailable]

theorem newRequestHandler_rejects_at_capacity_witness :
    idleUnbuffered.Encrypt.buf.length = idleUnbuffered.Encrypt.cap ∧
    idleUnbuffered.Encrypt.recvReady = false ∧
    (idleUnbuffered.newRequestHandler "id-1" "hello" 0 []).2.status = 503 :=
  ⟨rfl, rfl,
    (newRequestHandler_rejects_at_capacity idleUnbuffered "id-1" "hello" 0 [] rfl rfl).1⟩

/-- Claim C3. When the admission queue holds fewer requests than its capacity,
`newRequestHandler` is not rejected (it answers 200 or 202): the request made of the generated id
and the message is appended at the tail of the queue, whose earlier entries are unchanged, and
exactly one command is sent on `Track`, with `Add = true`, that request and the timing computed
by `GetEncryptionTiming`. -/
theorem newRequestHandler_admits_below_capacity (application : Application)
    (requestId message : String) (now : Time) (later : List (GoMap String))
    (hroom : application.Encrypt.buf.length < application.Encrypt.cap) :
    ((application.newRequestHandler requestId message now later).2.status = 200 ∨
      (application.newRequestHandler requestId message now later).2.status = 202) ∧
    (application.newRequestHandler requestId message now later).2.status ≠ 503 ∧
    (application.newRequestHandler requestId message now later).1.Encrypt.buf
      = application.Encrypt.buf ++ [{ RequestId := requestId, Message := message }] ∧
    (application.newRequestHandler requestId message now later).1.Encrypt.buf.length
      = application.Encrypt.buf.length + 1 ∧
    (application.newRequestHandler requestId message now later).1.Track
      = application.Track ++
        [{ RequestId := requestId, Message := message,
           toTiming := ({ application with
              Encrypt := { application.Encrypt with
                buf := application.Encrypt.buf ++
                  [{ RequestId := requestId, Message := message }] } } :
              Application).GetEncryptionTiming now,
           Add := true }] := by
  have hsend : application.Encrypt.trySend ⟨requestId, message⟩
      = .sent { application.Encrypt with
          buf := application.Encrypt.buf ++ [{ RequestId := requestId, Message := message }] } := by
    simp [Chan.trySend, hroom]
  simp only [Application.newRequestHandler, hsend]
  split <;> simp [Response.status, StatusOK, StatusAccepted]

theorem newRequestHandler_admits_below_capacity_witness :
    halfFull.Encrypt.buf.length < halfFull.Encrypt.cap ∧
    (halfFull.newRequestHandler "second" "world" 0 []).1.Encrypt.buf
      = [{ RequestId := "first", Message := "hello" },
         { RequestId := "second", Message := "world" }] :=
  ⟨by decide,
    (newRequestHandler_admits_below_capacity halfFull "second" "world" 0 [] (by decide)).2.2.1⟩

theorem GoMap.delete_of_lookup_none {V : Type} (m : GoMap V) (k : String)
    (h : m.lookup k = none) : m.delete k = m := by
  cases m with
  | nil => rfl
  | mk a =>
    simp only [GoMap.lookup, AList.lookup_eq_none] at h
    simp only [GoMap.delete]
    congr 1
    apply AList.ext
    simp only [AList.erase]
    exact List.kerase_of_not_mem_keys h

theorem GoMap.lookup_delete_self {V : Type} (m : GoMap V) (k : String) :
    (m.delete k).lookup k = none := by
  cases m <;> simp [GoMap.delete, GoMap.lookup]

theorem GoMap.lookup_delete_ne {V : Type} (m : GoMap V) {k k' : String} (h : k' ≠ k) :
    (m.delete k).lookup k' = m.lookup k' := by
  cases m <;> simp [GoMap.delete, GoMap.lookup, h]

/-! ## Signature store -/

/-- Claim C4 holds on every initialised signature map and fails on the code at the nil map.
One iteration of `StoreSignedRequests` on the command `{id, s, Add = true}` turns an initialised
signature map `m` into `m[id := s]`: afterwards `id` reads as `s` and every other key reads as
before; exactly one command is sent on `Track`, and it has `Add = false` and `RequestId = id`.
On the nil map, which `InstantiateSignatures` returns for a snapshot holding `null`, the same
iteration panics at the assignment: the map stays nil and nothing is sent on `Track`. -/
theorem StoreSignedRequests_upsert :
    (∀ (m : AList (fun _ : String => String)) (id s : String) (rest : List SignedRequest)
        (track : List PendingRequest) (now : Time),
      ∃ storer c,
        Storer.StoreSignedRequests [(false, now)]
            { Store := { RequestId := id, Signature := s, Add := true } :: rest,
              Track := track, Signatures := .mk m } = .running storer ∧
        storer.Signatures = .mk (m.insert id s) ∧
        storer.Signatures.lookup id = some s ∧
        (∀ k, k ≠ id → storer.Signatures.lookup k = m.lookup k) ∧
        storer.Store = rest ∧
        storer.Track = track ++ [c] ∧ c.Add = false ∧ c.RequestId = id) ∧
    InstantiateSignatures (oneFile "signatures.json" nullDocument)
        (jsonFixed nullDocument GoMap.nil) "signatures.json" = GoMap.nil ∧
    ∀ (id s : String) (rest : List SignedRequest) (track : List PendingRequest) (now : Time),
      Storer.StoreSignedRequests [(false, now)]
          { Store := { RequestId := id, Signature := s, Add := true } :: rest,
            Track := track, Signatures := GoMap.nil }
        = .panicked { Store := rest, Track := track, Signatures := GoMap.nil } := by
  refine ⟨?_, ?_, ?_⟩
  · intro m id s rest track now
    refine ⟨_, _, rfl, rfl, ?_, ?_, rfl, rfl, rfl, rfl⟩
    · simp [GoMap.lookup]
    · intro k hk
      simp [GoMap.lookup, hk]
  · simp [InstantiateSignatures, FileSystem.ReadFile, oneFile, jsonFixed, nullDocument]
  · intro id s rest track now
    rfl

/-- Claim C5. One iteration of `StoreSignedRequests` on a command with `Add = false`, whatever
signature it carries, deletes exactly the key `id`: afterwards `id` has no entry, every other key
reads as before, a map without `id` is returned unchanged, and nothing is sent on `Track`. -/
theorem StoreSignedRequests_remove (signatures : GoMap String) (id s : String)
    (rest : List SignedRequest) (track : List PendingRequest) (now : Time) :
    ∃ storer,
      Storer.StoreSignedRequests [(false, now)]
          { Store := { RequestId := id, Signature := s, Add := false } :: rest,
            Track := track, Signatures := signatures } = .running storer ∧
      storer.Signatures.lookup id = none ∧
      (∀ k, k ≠ id → storer.Signatures.lookup k = signatures.lookup k) ∧
      (signatures.lookup id = none → storer.Signatures = signatures) ∧
      storer.Store = rest ∧
      storer.Track = track := by
  refine ⟨_, rfl, ?_, ?_, ?_, rfl, rfl⟩
  · exact GoMap.lookup_delete_self _ _
  · intro k hk
    exact GoMap.lookup_delete_ne _ hk
  · intro h
    exact GoMap.delete_of_lookup_none _ _ h

/-! ## Pending tracker -/

/-- The pending map after one tracker command. -/
theorem Tracker.iteration_cons (c : PendingRequest) (cs : List PendingRequest)
    (m : AList (fun _ : String => PendingRequest)) :
    Tracker.iteration false { Track := c :: cs, Requests := .mk m }
      = .next { Track := cs,
                Requests := .mk (if c.Add then m.insert c.RequestId c else m.erase c.RequestId) } := by
  cases h : c.Add <;> simp [Tracker.iteration, h, GoMap.store, GoMap.delete]

theorem Tracker.run_all (cmds : List PendingRequest) :
    ∀ m : AList (fun _ : String => PendingRequest),
    ∃ final : AList (fun _ : String => PendingRequest),
      Tracker.TrackPendingRequests (List.replicate cmds.length false)
          { Track := cmds, Requests := .mk m } = .running { Track := [], Requests := .mk final } ∧
      ∀ id : String,
        final.lookup id =
          match (cmds.filter (fun c => c.RequestId = id)).getLast? with
          | some c => if c.Add then some c else none
          | none => m.lookup id := by
  induction cmds with
  | nil =>
    intro m
    exact ⟨m, rfl, fun id => rfl⟩
  | cons c cs ih =>
    intro m
    obtain ⟨final, hrun, hfinal⟩ :=
      ih (if c.Add then m.insert c.RequestId c else m.erase c.RequestId)
    refine ⟨final, ?_, ?_⟩
    · simp only [List.length_cons, List.replicate_succ, Tracker.TrackPendingRequests,
        Tracker.iteration_cons]
      exact hrun
    · intro id
      rw [hfinal id]
      by_cases hid : c.RequestId = id
      · simp only [List.filter_cons, hid, decide_True, if_true]
        generalize cs.filter (fun c => decide (c.RequestId = id)) = l
        cases l with
        | nil =>
          subst hid
          cases hadd : c.Add <;> simp [hadd]
        | cons b l =>
          rw [List.getLast?_cons_cons, List.getLast?_eq_getLast _ (List.cons_ne_nil b l)]
      · simp only [List.filter_cons, hid, decide_False, Bool.false_eq_true, if_false]
        generalize cs.filter (fun c => decide (c.RequestId = id)) = l
        cases l with
        | nil =>
          cases hadd : c.Add <;> simp [hadd, Ne.symm hid]
        | cons b l =>
          rw [List.getLast?_eq_getLast _ (List.cons_ne_nil b l)]

/-- Claim C6 holds from every initialised pending map and fails on the code from the nil map.
Running `TrackPendingRequests` over a finite sequence of commands, from an initialised pending
map, consumes them all in order, and an id is a key of the resulting map exactly when the last
command naming it has `Add = true`, or no command names it and it was a key initially; when the
last command naming it has `Add = true` the stored entry is that command's record. From the nil
map, which `InstantiateCurrentRequests` returns for a snapshot holding `null`, the iteration on
a first command with `Add = true` panics at the assignment and there is no resulting map. -/
theorem TrackPendingRequests_last_command_wins :
    (∀ (m : AList (fun _ : String => PendingRequest)) (cmds : List PendingRequest),
      ∃ final : GoMap PendingRequest,
        Tracker.TrackPendingRequests (List.replicate cmds.length false)
            { Track := cmds, Requests := .mk m } = .running { Track := [], Requests := final } ∧
        ∀ id : String,
          ((final.lookup id).isSome = true ↔
            (∃ c, (cmds.filter (fun c => c.RequestId = id)).getLast? = some c ∧ c.Add = true) ∨
            ((cmds.filter (fun c => c.RequestId = id)).getLast? = none ∧
              (m.lookup id).isSome = true)) ∧
          ∀ c, (cmds.filter (fun c => c.RequestId = id)).getLast? = some c → c.Add = true →
            final.lookup id = some c) ∧
    InstantiateCurrentRequests (oneFile "pending.json" nullDocument)
        (jsonFixed nullDocument GoMap.nil) emptyQueue "pending.json"
      = .returned GoMap.nil emptyQueue ∧
    ∀ (request : Request) (timing : Timing) (rest : List PendingRequest) (later : List Bool),
      Tracker.TrackPendingRequests (false :: later)
          { Track := { toRequest := request, toTiming := timing, Add := true } :: rest,
            Requests := GoMap.nil }
        = .panicked { Track := rest, Requests := GoMap.nil } := by
  refine ⟨?_, ?_, ?_⟩
  · intro m cmds
    obtain ⟨final, hrun, hfinal⟩ := Tracker.run_all cmds m
    refine ⟨.mk final, hrun, fun id => ?_⟩
    have h := hfinal id
    simp only [GoMap.lookup]
    cases hl : (cmds.filter (fun c => decide (c.RequestId = id))).getLast? with
    | none =>
      rw [hl] at h
      simp [h]
    | some c =>
      rw [hl] at h
      cases hadd : c.Add <;> simp [h, hadd]
  · simp [InstantiateCurrentRequests, FileSystem.ReadFile, oneFile, jsonFixed, nullDocument,
      GoMap.range, replay]
  · intro request timing rest later
    rfl

/-- Claim C7. Removal in the pending tracker is idempotent: a command with `Add = false` for an
id that is not a key leaves the map unchanged and the loop keeps running without error, and
applying the same removal twice gives the same map as applying it once. -/
theorem TrackPendingRequests_remove_idempotent (requests : GoMap PendingRequest)
    (request : Request) (timing : Timing) (rest : List PendingRequest) :
    (requests.lookup request.RequestId = none →
      Tracker.TrackPendingRequests [false]
          { Track := { toRequest := request, toTiming := timing, Add := false } :: rest,
            Requests := requests }
        = .running { Track := rest, Requests := requests }) ∧
    ∃ once : GoMap PendingRequest,
      Tracker.TrackPendingRequests [false]
          { Track := [{ toRequest := request, toTiming := timing, Add := false }],
            Requests := requests }
        = .running { Track := [], Requests := once } ∧
      Tracker.TrackPendingRequests [false, false]
          { Track := [{ toRequest := request, toTiming := timing, Add := false },
                      { toRequest := request, toTiming := timing, Add := false }],
            Requests := requests }
        = .running { Track := [], Requests := once } := by
  constructor
  · intro h
    simp [Tracker.TrackPendingRequests, Tracker.iteration, GoMap.delete_of_lookup_none _ _ h]
  · refine ⟨requests.delete request.RequestId, ?_, ?_⟩
    · simp [Tracker.TrackPendingRequests, Tracker.iteration]
    · simp [Tracker.TrackPendingRequests, Tracker.iteration,
        GoMap.delete_of_lookup_none _ _ (GoMap.lookup_delete_self requests request.RequestId)]

theorem TrackPendingRequests_remove_idempotent_witness :
    (GoMap.make : GoMap PendingRequest).lookup "job" = none ∧
    Tracker.TrackPendingRequests [false]
        { Track := [{ RequestId := "job", Message := "", TimeAdded := 0, TimeEstimate := 0,
                      Add := false }],
          Requests := GoMap.make }
      = .running { Track := [], Requests := GoMap.make } :=
  ⟨rfl,
    (TrackPendingRequests_remove_idempotent GoMap.make
      { RequestId := "job", Message := "" } { TimeAdded := 0, TimeEstimate := 0 } []).1 rfl⟩

/-! ## Status queries -/

/-- Claim C8. For an id that is a key of the signature map with value `s`, whether or not it is
pending as well, `currentRequestHandler` answers 200 with `Signature = s` and sends exactly one
command on `Store`, `{id, s, Add = false}`; both maps, the queue and `Track` are left as they
were. -/
theorem currentRequestHandler_completed (application : Application) (id s : String)
    (now : Time) (h : application.Signatures.lookup id = some s) :
    (application.currentRequestHandler id now).2
      = .fulfilled 200
          { Body := "Request processed successfully!", Signature := s, StatusCode := 200 } ∧
    (application.currentRequestHandler id now).2.status = 200 ∧
    (application.currentRequestHandler id now).1.Store
      = application.Store ++ [{ RequestId := id, Signature := s, Add := false }] ∧
    (application.currentRequestHandler id now).1.Signatures = application.Signatures ∧
    (application.currentRequestHandler id now).1.Requests = application.Requests ∧
    (application.currentRequestHandler id now).1.Track = application.Track ∧
    (application.currentRequestHandler id now).1.Encrypt = application.Encrypt := by
  simp [Application.currentRequestHandler, h, Response.status, StatusOK]

theorem currentRequestHandler_completed_witness :
    completedOne.Signatures.lookup "job" = some "signature" ∧
    (completedOne.currentRequestHandler "job" 0).1.Store
      = [{ RequestId := "job", Signature := "signature", Add := false }] :=
  ⟨by decide,
    (currentRequestHandler_completed completedOne "job" "signature" 0 (by decide)).2.2.1⟩

theorem Duration.Minutes_eq (d : Duration) : Duration.Minutes d = (d : ℚ) / 60000000000 := by
  have h := Int.tdiv_add_tmod d Minute
  have hq : ((Minute * Int.tdiv d Minute + Int.tmod d Minute : Int) : ℚ) = (d : ℚ) := by
    rw [h]
  simp only [Duration.Minutes]
  simp only [Minute] at hq ⊢
  push_cast at hq
  rw [← hq]
  field_simp
  ring_nf

theorem currentRequestHandler_pending_eq (application : Application) (id : String) (now : Time)
    (request : PendingRequest) (hs : application.Signatures.lookup id = none)
    (hp : application.Requests.lookup id = some request) :
    application.currentRequestHandler id now
      = (application,
          .processing 202
            { Body := "Request is still being processed. Please check back according to the time estimate (minutes).",
              RequestId := id,
              TimeEstimate :=
                if request.TimeEstimate - (Since now request.TimeAdded).Minutes < 0 then 5
                else request.TimeEstimate - (Since now request.TimeAdded).Minutes,
              StatusCode := 202 }) := by
  simp [Application.currentRequestHandler, hs, hp, StatusAccepted]

theorem Since_of_small (now t : Time) (h1 : now - t ≤ maxDuration) (h2 : minDuration ≤ now - t) :
    Since now t = now - t := by
  simp only [Since, Time.Sub]
  rw [if_neg (not_lt.mpr h1), if_neg (not_lt.mpr h2)]

/-- Claim C9 fails as stated: a pending request estimated at 7 minutes and queried 4 minutes
after it was added is answered with 3 remaining minutes, whereas `max(7 - 4, 5)` is 5. -/
theorem currentRequestHandler_remaining_not_max :
    pendingSeven.Signatures.lookup "job" = none ∧
    pendingSeven.Requests.lookup "job" = some jobSeven ∧
    jobSeven.TimeEstimate = 7 ∧
    (Since (4 * Minute) jobSeven.TimeAdded).Minutes = 4 ∧
    (pendingSeven.currentRequestHandler "job" (4 * Minute)).2
      = .processing 202
          { Body := "Request is still being processed. Please check back according to the time estimate (minutes).",
            RequestId := "job", TimeEstimate := 3, StatusCode := 202 } ∧
    (3 : ℚ) ≠ max (jobSeven.TimeEstimate - (Since (4 * Minute) jobSeven.TimeAdded).Minutes) 5 := by
  have hmin : (Since (4 * Minute) jobSeven.TimeAdded).Minutes = 4 := by
    rw [Duration.Minutes_eq, Since_of_small _ _ (by decide) (by decide)]
    norm_num [jobSeven, Minute]
  have heta : jobSeven.TimeEstimate = 7 := rfl
  refine ⟨by decide, by decide, heta, hmin, ?_, ?_⟩
  · rw [currentRequestHandler_pending_eq pendingSeven "job" (4 * Minute) jobSeven
      (by decide) (by decide), hmin, heta]
    norm_num
  · rw [hmin, heta]
    norm_num

/-- Claim C9, amended. For an id absent from the signature map and present in the pending map,
`currentRequestHandler` answers 202 with `TimeEstimate` equal to the estimate minus the elapsed
minutes when that difference is not negative, and equal to 5 when it is negative; the state is
unchanged. -/
theorem currentRequestHandler_in_progress (application : Application) (id : String) (now : Time)
    (request : PendingRequest) (hs : application.Signatures.lookup id = none)
    (hp : application.Requests.lookup id = some request) :
    (application.currentRequestHandler id now).2.status = 202 ∧
    (application.currentRequestHandler id now).2
      = .processing 202
          { Body := "Request is still being processed. Please check back according to the time estimate (minutes).",
            RequestId := id,
            TimeEstimate :=
              if request.TimeEstimate - (Since now request.TimeAdded).Minutes < 0 then 5
              else request.TimeEstimate - (Since now request.TimeAdded).Minutes,
            StatusCode := 202 } ∧
    (application.currentRequestHandler id now).1 = application := by
  rw [currentRequestHandler_pending_eq application id now request hs hp]
  exact ⟨rfl, rfl, rfl⟩

theorem currentRequestHandler_in_progress_witness :
    pendingSeven.Signatures.lookup "job" = none ∧
    pendingSeven.Requests.lookup "job" = some jobSeven ∧
    (pendingSeven.currentRequestHandler "job" (4 * Minute)).2.status = 202 :=
  ⟨by decide, by decide,
    (currentRequestHandler_in_progress pendingSeven "job" (4 * Minute) jobSeven
      (by decide) (by decide)).1⟩

/-- Claim C10. For an id present only in the pending map whose elapsed minutes since `TimeAdded`
exceed its `TimeEstimate`, `currentRequestHandler` answers 202 with a remaining time of exactly
5 minutes. -/
theorem currentRequestHandler_expired_estimate (application : Application) (id : String)
    (now : Time) (request : PendingRequest)
    (hs : application.Signatures.lookup id = none)
    (hp : application.Requests.lookup id = some request)
    (hlate : request.TimeEstimate < (Since now request.TimeAdded).Minutes) :
    (application.currentRequestHandler id now).2
      = .processing 202
          { Body := "Request is still being processed. Please check back according to the time estimate (minutes).",
            RequestId := id, TimeEstimate := 5, StatusCode := 202 } := by
  rw [currentRequestHandler_pending_eq application id now request hs hp]
  have hneg : request.TimeEstimate - (Since now request.TimeAdded).Minutes < 0 := by linarith
  rw [if_pos hneg]

theorem currentRequestHandler_expired_estimate_witness :
    pendingExpired.Signatures.lookup "job" = none ∧
    pendingExpired.Requests.lookup "job" = some jobExpired ∧
    jobExpired.TimeEstimate < (Since 1 jobExpired.TimeAdded).Minutes ∧
    (pendingExpired.currentRequestHandler "job" 1).2
      = .processing 202
          { Body := "Request is still being processed. Please check back according to the time estimate (minutes).",
            RequestId := "job", TimeEstimate := 5, StatusCode := 202 } :=
  have hlate : jobExpired.TimeEstimate < (Since 1 jobExpired.TimeAdded).Minutes := by
    rw [Duration.Minutes_eq, Since_of_small _ _ (by decide) (by decide)]
    norm_num [jobExpired]
  ⟨by decide, by decide, hlate,
    currentRequestHandler_expired_estimate pendingExpired "job" 1 jobExpired
      (by decide) (by decide) hlate⟩

/-! ## Status queries: unknown ids -/

/-- Claim C11. For an id that is a key of neither the signature map nor the pending map,
`currentRequestHandler` answers 404, sends nothing on `Store` or `Track` and leaves both maps
and the queue as they were. -/
theorem currentRequestHandler_not_found (application : Application) (id : String) (now : Time)
    (hs : application.Signatures.lookup id = none)
    (hp : application.Requests.lookup id = none) :
    (application.currentRequestHandler id now).2.status = 404 ∧
    (application.currentRequestHandler id now).2
      = .denied 404
          { Body := "The requestId is not recognized. Please use the 'crypto/sign' endpoint to generate a new request.",
            StatusCode := 404 } ∧
    (application.currentRequestHandler id now).1.Store = application.Store ∧
    (application.currentRequestHandler id now).1.Track = application.Track ∧
    (application.currentRequestHandler id now).1.Signatures = application.Signatures ∧
    (application.currentRequestHandler id now).1.Requests = application.Requests ∧
    (application.currentRequestHandler id now).1.Encrypt = application.Encrypt := by
  simp [Application.currentRequestHandler, hs, hp, Response.status, StatusNotFound]

theorem currentRequestHandler_not_found_witness :
    idleUnbuffered.Signatures.lookup "unknown" = none ∧
    idleUnbuffered.Requests.lookup "unknown" = none ∧
    (idleUnbuffered.currentRequestHandler "unknown" 0).2.status = 404 :=
  ⟨by decide, by decide,
    (currentRequestHandler_not_found idleUnbuffered "unknown" 0 (by decide) (by decide)).1⟩

/-! ## Synchronous retrieval -/

/-- Claim C12. One poll `Retriever.RetrieveSignature` returns nil exactly when `RequestId` is a
key of `Signatures`; it then sends the stored signature, and nothing else, on `Response`;
otherwise it returns an error and sends nothing. The method only reads the map. -/
theorem RetrieveSignature_succeeds_iff_present (retriever : Retriever) :
    (retriever.RetrieveSignature.2 = none ↔
      (retriever.Signatures.lookup retriever.RequestId).isSome = true) ∧
    (∀ s, retriever.Signatures.lookup retriever.RequestId = some s →
      retriever.RetrieveSignature = (some s, none)) ∧
    (retriever.Signatures.lookup retriever.RequestId = none →
      retriever.RetrieveSignature.1 = none ∧ retriever.RetrieveSignature.2.isSome = true) := by
  unfold Retriever.RetrieveSignature
  cases h : retriever.Signatures.lookup retriever.RequestId <;> simp

theorem RetrieveSignature_succeeds_iff_present_witness :
    ({ Signatures := completedOne.Signatures, RequestId := "job" } : Retriever).RetrieveSignature
      = (some "signature", none) :=
  (RetrieveSignature_succeeds_iff_present
    { Signatures := completedOne.Signatures, RequestId := "job" }).2.1 "signature" (by decide)

theorem retryRetrieve_absent (id : String) (polls : List (GoMap String))
    (h : ∀ m ∈ polls, m.lookup id = none) :
    retryRetrieve id polls = ("", some "Signature not available yet.") := by
  induction polls with
  | nil => rfl
  | cons m rest ih =>
    have hm : m.lookup id = none := h m (List.mem_cons_self _ _)
    simp only [retryRetrieve, Retriever.RetrieveSignature, hm]
    exact ih (fun m' hm' => h m' (List.mem_cons_of_mem _ hm'))

theorem retryRetrieve_first (id s : String) (before after : List (GoMap String))
    (m : GoMap String) (hb : ∀ m' ∈ before, m'.lookup id = none) (hm : m.lookup id = some s) :
    retryRetrieve id (before ++ m :: after) = (s, none) := by
  induction before with
  | nil => simp [retryRetrieve, Retriever.RetrieveSignature, hm]
  | cons b rest ih =>
    have hb0 : b.lookup id = none := hb b (List.mem_cons_self _ _)
    simp only [List.cons_append, retryRetrieve, Retriever.RetrieveSignature, hb0]
    exact ih (fun m' hm' => hb m' (List.mem_cons_of_mem _ hm'))

theorem retryRetrieve_error_empty (id : String) (polls : List (GoMap String)) :
    (retryRetrieve id polls).2.isSome = true → (retryRetrieve id polls).1 = "" := by
  induction polls with
  | nil => intro _; rfl
  | cons m rest ih =>
    cases hm : m.lookup id with
    | none => simpa [retryRetrieve, Retriever.RetrieveSignature, hm] using ih
    | some s => simp [retryRetrieve, Retriever.RetrieveSignature, hm]

/-- Claim C13. `retrieveSignature` returns `(s, nil)` when the signature map holds `id -> s` at
a poll that all earlier polls of the budget missed, returns the empty string with an error when
the id is absent at every poll, and never returns an error together with a non-empty
signature. -/
theorem retrieveSignature_outcomes (application : Application) (id : String)
    (later : List (GoMap String)) :
    (∀ (before after : List (GoMap String)) (m : GoMap String) (s : String),
      application.Signatures :: later = before ++ m :: after →
      (∀ m' ∈ before, m'.lookup id = none) → m.lookup id = some s →
      retrieveSignature application id later = (s, none)) ∧
    ((∀ m ∈ application.Signatures :: later, m.lookup id = none) →
      (retrieveSignature application id later).1 = "" ∧
      (retrieveSignature application id later).2.isSome = true) ∧
    ((retrieveSignature application id later).2.isSome = true →
      (retrieveSignature application id later).1 = "") := by
  refine ⟨?_, ?_, ?_⟩
  · intro before after m s hsplit hb hm
    unfold retrieveSignature
    rw [hsplit]
    exact retryRetrieve_first id s before after m hb hm
  · intro h
    unfold retrieveSignature
    rw [retryRetrieve_absent id _ h]
    exact ⟨rfl, rfl⟩
  · exact retryRetrieve_error_empty id _

theorem retrieveSignature_outcomes_witness :
    retrieveSignature idleUnbuffered "job" [GoMap.make, completedOne.Signatures]
      = ("signature", none) :=
  (retrieveSignature_outcomes idleUnbuffered "job" [GoMap.make, completedOne.Signatures]).1
    [GoMap.make, GoMap.make] [] completedOne.Signatures "signature" rfl
    (by decide) (by decide)

/-! ## Loading snapshots -/

/-- Claim C14. For both loaders, `InstantiateSignatures` and `InstantiateCurrentRequests`: when
the snapshot file cannot be read, has zero bytes, or is rejected by `json.Unmarshal`, the loader
returns the initialised empty map; `InstantiateCurrentRequests` then leaves the admission queue
as it was. -/
theorem loaders_degrade_to_empty (fs : FileSystem) (jsonSignatures : Json String)
    (jsonPending : Json PendingRequest) (encrypt : Chan Request) (location : String) :
    ((fs location = none ∨ fs location = some [] ∨
        ∃ content err, fs location = some content ∧
          jsonSignatures.Unmarshal content = .error err) →
      InstantiateSignatures fs jsonSignatures location = GoMap.make) ∧
    ((fs location = none ∨ fs location = some [] ∨
        ∃ content err, fs location = some content ∧
          jsonPending.Unmarshal content = .error err) →
      InstantiateCurrentRequests fs jsonPending encrypt location
        = .returned GoMap.make encrypt) := by
  constructor
  · rintro (h | h | ⟨content, err, h, hparse⟩)
    · simp [InstantiateSignatures, FileSystem.ReadFile, h]
    · simp [InstantiateSignatures, FileSystem.ReadFile, h]
    · simp only [InstantiateSignatures, FileSystem.ReadFile, h, hparse]
      split <;> rfl
  · rintro (h | h | ⟨content, err, h, hparse⟩)
    · simp [InstantiateCurrentRequests, FileSystem.ReadFile, h]
    · simp [InstantiateCurrentRequests, FileSystem.ReadFile, h]
    · simp only [InstantiateCurrentRequests, FileSystem.ReadFile, h, hparse]
      split <;> rfl

theorem loaders_degrade_to_empty_witness :
    noFiles "./internal/persistence/signatures.json" = none ∧
    InstantiateSignatures noFiles (jsonFixed emptyObject GoMap.make)
      "./internal/persistence/signatures.json" = GoMap.make ∧
    InstantiateCurrentRequests noFiles (jsonFixed emptyObject GoMap.make) emptyQueue
      "./internal/persistence/signatures.json" = .returned GoMap.make emptyQueue :=
  ⟨rfl,
    (loaders_degrade_to_empty noFiles (jsonFixed emptyObject GoMap.make)
      (jsonFixed emptyObject GoMap.make) emptyQueue
      "./internal/persistence/signatures.json").1 (Or.inl rfl),
    (loaders_degrade_to_empty noFiles (jsonFixed emptyObject GoMap.make)
      (jsonFixed emptyObject GoMap.make) emptyQueue
      "./internal/persistence/signatures.json").2 (Or.inl rfl)⟩

theorem replay_with_room (entries : List (String × PendingRequest)) :
    ∀ encrypt : Chan Request, encrypt.buf.length + entries.length ≤ encrypt.cap →
      replay entries encrypt
        = some { encrypt with
            buf := encrypt.buf ++
              entries.map (fun e => { RequestId := e.1, Message := e.2.Message }) } := by
  induction entries with
  | nil => intro encrypt _; simp [replay]
  | cons e rest ih =>
    intro encrypt h
    obtain ⟨k, v⟩ := e
    have hlt : encrypt.buf.length < encrypt.cap := by
      simp only [List.length_cons] at h
      omega
    simp only [replay, Chan.trySend, hlt, if_true]
    rw [ih]
    · simp
    · simp only [List.length_cons, List.length_append, List.length_nil] at h ⊢
      omega

theorem GoMap.range_keys {V : Type} (m : GoMap V) :
    (m.range.map Prod.fst).Nodup := by
  cases m with
  | nil => simp [GoMap.range]
  | mk a =>
    have h := a.keys_nodup
    simpa [GoMap.range, AList.keys, List.keys, List.map_map, Function.comp_def] using h

theorem GoMap.mem_range {V : Type} (m : GoMap V) (k : String) (v : V) :
    (k, v) ∈ m.range ↔ m.lookup k = some v := by
  cases m with
  | nil => simp [GoMap.range, GoMap.lookup]
  | mk a =>
    simp only [GoMap.range, GoMap.lookup, List.mem_map]
    constructor
    · rintro ⟨e, he, heq⟩
      obtain ⟨k', v'⟩ := e
      simp only [Prod.mk.injEq] at heq
      obtain ⟨rfl, rfl⟩ := heq
      exact AList.mem_lookup_iff.mpr he
    · intro h
      exact ⟨⟨k, v⟩, AList.mem_lookup_iff.mp h, rfl⟩

theorem GoMap.range_length {V : Type} (m : GoMap V) : m.range.length = m.len := by
  cases m <;> simp [GoMap.range, GoMap.len]

theorem InstantiateCurrentRequests_with_room (fs : FileSystem) (json : Json PendingRequest)
    (encrypt : Chan Request) (location : String) (content : Bytes)
    (pending : GoMap PendingRequest)
    (hread : fs location = some content) (hne : content ≠ [])
    (hparse : json.Unmarshal content = .ok pending)
    (hroom : encrypt.buf.length + pending.len ≤ encrypt.cap) :
    InstantiateCurrentRequests fs json encrypt location
      = .returned pending
          { encrypt with
            buf := encrypt.buf ++
              pending.range.map (fun e => { RequestId := e.1, Message := e.2.Message }) } := by
  have hpos : content.length > 0 := List.length_pos.mpr hne
  simp only [InstantiateCurrentRequests, FileSystem.ReadFile, hread, hparse, hpos, if_true]
  rw [replay_with_room]
  rw [GoMap.range_length]
  exact hroom

/-- Claim C15. When the pending snapshot parses to a map with `n` entries and the admission
queue has at least `n` free places, `InstantiateCurrentRequests` returns the parsed map and
appends exactly `n` requests to the queue, with distinct ids, one for each entry: its key as
`RequestId` and its message as `Message`. -/
theorem InstantiateCurrentRequests_replays (fs : FileSystem) (json : Json PendingRequest)
    (encrypt : Chan Request) (location : String) (content : Bytes)
    (pending : GoMap PendingRequest)
    (hread : fs location = some content) (hne : content ≠ [])
    (hparse : json.Unmarshal content = .ok pending)
    (hroom : encrypt.buf.length + pending.len ≤ encrypt.cap) :
    ∃ added : List Request,
      InstantiateCurrentRequests fs json encrypt location
        = .returned pending { encrypt with buf := encrypt.buf ++ added } ∧
      added.length = pending.len ∧
      (added.map (fun r => r.RequestId)).Nodup ∧
      ∀ r : Request, r ∈ added ↔
        ∃ entry, pending.lookup r.RequestId = some entry ∧ r.Message = entry.Message := by
  refine ⟨pending.range.map (fun e => { RequestId := e.1, Message := e.2.Message }),
    ?_, ?_, ?_, ?_⟩
  · exact InstantiateCurrentRequests_with_room fs json encrypt location content pending
      hread hne hparse hroom
  · simp [GoMap.range_length]
  · simpa [List.map_map, Function.comp_def] using GoMap.range_keys pending
  · intro r
    simp only [List.mem_map]
    constructor
    · rintro ⟨⟨k, v⟩, he, rfl⟩
      exact ⟨v, (GoMap.mem_range pending k v).mp he, rfl⟩
    · rintro ⟨entry, hl, hmsg⟩
      refine ⟨(r.RequestId, entry), (GoMap.mem_range pending _ _).mpr hl, ?_⟩
      cases r
      simp_all

theorem InstantiateCurrentRequests_replays_witness :
    oneFile "pending.json" [123, 46, 46, 46, 125] "pending.json" = some [123, 46, 46, 46, 125] ∧
    emptyQueue.buf.length + pendingSeven.Requests.len ≤ emptyQueue.cap ∧
    ∃ added : List Request,
      InstantiateCurrentRequests (oneFile "pending.json" [123, 46, 46, 46, 125])
          (jsonFixed [123, 46, 46, 46, 125] pendingSeven.Requests) emptyQueue "pending.json"
        = .returned pendingSeven.Requests { emptyQueue with buf := emptyQueue.buf ++ added } ∧
      added.length = pendingSeven.Requests.len ∧
      (added.map (fun r => r.RequestId)).Nodup ∧
      ∀ r : Request, r ∈ added ↔
        ∃ entry, pendingSeven.Requests.lookup r.RequestId = some entry ∧
          r.Message = entry.Message :=
  ⟨by decide, by decide,
    InstantiateCurrentRequests_replays (oneFile "pending.json" [123, 46, 46, 46, 125])
      (jsonFixed [123, 46, 46, 46, 125] pendingSeven.Requests) emptyQueue "pending.json"
      [123, 46, 46, 46, 125] pendingSeven.Requests (by decide) (by decide)
      (by simp [jsonFixed]) (by decide)⟩

/-! ## Worker pool -/

theorem fillEncryptors_with_room (n : Nat) :
    ∀ encryptors : Chan Unit, encryptors.buf.length + n ≤ encryptors.cap →
      fillEncryptors n encryptors
        = .returned none { encryptors with buf := encryptors.buf ++ List.replicate n () } := by
  induction n with
  | zero => intro encryptors _; simp [fillEncryptors]
  | succ n ih =>
    intro encryptors h
    have hlt : encryptors.buf.length < encryptors.cap := by omega
    simp only [fillEncryptors, Chan.trySend, hlt, if_true]
    rw [ih]
    · simp [List.replicate_succ]
    · simp only [List.length_append, List.length_cons, List.length_nil]
      omega

theorem InstantiateEncryptors_fresh (max : Nat) :
    InstantiateEncryptors max { cap := max, buf := [], recvReady := false }
      = .returned none { cap := max, buf := List.replicate max (), recvReady := false } := by
  simp only [InstantiateEncryptors, Int.toNat_ofNat]
  rw [fillEncryptors_with_room]
  · simp
  · simp

theorem encryptor_keeps_pool (worker : Worker) (request : Request) (attempt : Attempt) :
    (encryptor worker request attempt).1.scheduler.Encryptors = worker.scheduler.Encryptors ∧
    (encryptor worker request attempt).1.scheduler.Encrypt = worker.scheduler.Encrypt := by
  unfold encryptor
  cases attempt with
  | requestError => exact ⟨rfl, rfl⟩
  | transportError => exact ⟨rfl, rfl⟩
  | response statusCode body =>
    by_cases hs : statusCode = StatusOK
    · cases body <;> simp [hs]
    · simp [hs]

theorem encryptorParent_returned (request : Request) (attempts : List Attempt) :
    ∀ worker done : Worker, encryptorParent request attempts worker = .returned none done →
      worker.scheduler.Encryptors.buf.length < worker.scheduler.Encryptors.cap →
      done.scheduler.Encryptors
        = { worker.scheduler.Encryptors with buf := worker.scheduler.Encryptors.buf ++ [()] } := by
  induction attempts with
  | nil => intro worker done h; simp [encryptorParent] at h
  | cons a rest ih =>
    intro worker done h hroom
    have hkeep := (encryptor_keeps_pool worker request a).1
    simp only [encryptorParent] at h
    cases hres : encryptor worker request a with
    | mk w err =>
      rw [hres] at h hkeep
      simp only at hkeep
      cases err with
      | some e =>
        simp only at h
        have := ih w done h (by rw [hkeep]; exact hroom)
        rw [this, hkeep]
      | none =>
        simp only at h
        have hlt : w.scheduler.Encryptors.buf.length < w.scheduler.Encryptors.cap := by
          rw [hkeep]; exact hroom
        simp only [Chan.trySend, hlt, if_true] at h
        injection h with _ h2
        rw [← h2, hkeep]

theorem Pool.dispatch_tokens (pool next : Pool) (request : Request) :
    (pool.dispatch request = .next next →
      next.scheduler.Encryptors.cap = pool.scheduler.Encryptors.cap ∧
      next.scheduler.Encryptors.buf.length + 1 = pool.scheduler.Encryptors.buf.length ∧
      next.workers.length = pool.workers.length + 1) ∧
    (pool.dispatch request = .blocked next →
      next.scheduler.Encryptors = pool.scheduler.Encryptors ∧ next.workers = pool.workers) := by
  unfold Pool.dispatch
  cases h : pool.scheduler.Encryptors.buf with
  | nil =>
    constructor
    · intro h'; simp at h'
    · intro h'
      simp only [Iter.blocked.injEq] at h'
      subst h'
      exact ⟨rfl, rfl⟩
  | cons t ts =>
    constructor
    · intro h'
      simp only [Iter.next.injEq] at h'
      subst h'
      simp
    · intro h'; simp at h'

theorem Pool.iteration_tokens (ctxDone : Bool) (pool next : Pool) :
    (pool.iteration ctxDone = .next next →
      next.scheduler.Encryptors.cap = pool.scheduler.Encryptors.cap ∧
      next.scheduler.Encryptors.buf.length + 1 = pool.scheduler.Encryptors.buf.length ∧
      next.workers.length = pool.workers.length + 1) ∧
    (pool.iteration ctxDone = .blocked next →
      next.scheduler.Encryptors = pool.scheduler.Encryptors ∧ next.workers = pool.workers) := by
  unfold Pool.iteration
  cases hheld : pool.held with
  | some request => exact Pool.dispatch_tokens pool next request
  | none =>
    cases ctxDone with
    | true => constructor <;> intro h' <;> simp at h'
    | false =>
      cases hq : pool.scheduler.Encrypt.buf with
      | nil =>
        constructor
        · intro h'; simp at h'
        · intro h'
          simp only [Bool.false_eq_true, if_false, Iter.blocked.injEq] at h'
          subst h'
          exact ⟨rfl, rfl⟩
      | cons r rest =>
        simp only [Bool.false_eq_true, if_false]
        exact Pool.dispatch_tokens _ next r

/-- The invariant of the pool: its capacity is `max` and every token is either free or held by
a worker. -/
theorem Pool.reachable_invariant (max : Nat) (pool : Pool) (h : Pool.Reachable max pool) :
    pool.scheduler.Encryptors.cap = max ∧
    pool.scheduler.Encryptors.buf.length + pool.workers.length = max := by
  induction h with
  | init encrypt store encryptors hinit =>
    rw [InstantiateEncryptors_fresh] at hinit
    injection hinit with _ hch
    subst hch
    simp
  | step pool next _ hstep ih =>
    obtain ⟨hcap, hsum⟩ := ih
    cases hstep with
    | dispatch ctxDone _ _ hit =>
      obtain ⟨h1, h2, h3⟩ := (Pool.iteration_tokens ctxDone pool next).1 hit
      exact ⟨by rw [h1, hcap], by omega⟩
    | wait ctxDone _ _ hit =>
      obtain ⟨h1, h2⟩ := (Pool.iteration_tokens ctxDone pool next).2 hit
      rw [h1, h2]
      exact ⟨hcap, hsum⟩
    | complete _ request attempts worker hmem hrun =>
      have hpos : 0 < pool.workers.length := List.length_pos_of_mem hmem
      have hroom : pool.scheduler.Encryptors.buf.length < pool.scheduler.Encryptors.cap := by
        omega
      have hdone := encryptorParent_returned request attempts
        { scheduler := pool.scheduler, calls := [] } worker hrun hroom
      simp only at hdone
      simp only [hdone, List.length_append, List.length_cons, List.length_nil,
        List.length_erase_of_mem hmem]
      exact ⟨hcap, by omega⟩

/-- Claim C16. Pool-slot conservation: `InstantiateEncryptors(max, encryptors)` on the fresh
channel returns with exactly `max` tokens in it, and in every state reached from there by
dispatcher iterations and worker completions the free tokens plus the jobs held by workers
number `max`, so at most `max` jobs are in flight. -/
theorem pool_slot_conservation (max : Nat) :
    (∃ encryptors : Chan Unit,
      InstantiateEncryptors max { cap := max, buf := [], recvReady := false }
        = .returned none encryptors ∧
      encryptors.buf.length = max) ∧
    ∀ pool : Pool, Pool.Reachable max pool →
      pool.scheduler.Encryptors.buf.length + pool.workers.length = max ∧
      pool.workers.length ≤ max := by
  constructor
  · exact ⟨_, InstantiateEncryptors_fresh max, by simp⟩
  · intro pool h
    have hinv := (Pool.reachable_invariant max pool h).2
    exact ⟨hinv, by omega⟩

theorem poolBusy_reachable : Pool.Reachable 2 poolBusy := by
  have h0 : Pool.Reachable 2 poolAtStart :=
    Pool.Reachable.init _ _ _ (InstantiateEncryptors_fresh 2)
  exact Pool.Reachable.step poolAtStart poolBusy h0
    (Pool.Step.dispatch false poolAtStart poolBusy rfl)

theorem pool_slot_conservation_witness :
    poolBusy.workers = [{ RequestId := "job", Message := "message" }] ∧
    poolBusy.scheduler.Encryptors.buf.length + poolBusy.workers.length = 2 :=
  ⟨rfl, ((pool_slot_conservation 2).2 poolBusy poolBusy_reachable).1⟩

theorem encryptor_clientFailure (worker : Worker) (request : Request) (attempt : Attempt)
    (h : attempt.clientFailure = true) :
    ∃ err, encryptor worker request attempt
      = ({ worker with calls := worker.calls ++ [request] }, some err) := by
  cases attempt with
  | requestError => simp [Attempt.clientFailure] at h
  | transportError => exact ⟨_, rfl⟩
  | response statusCode body =>
    by_cases hs : statusCode = StatusOK
    · cases body with
      | none => simp [encryptor, hs]
      | some b => simp [Attempt.clientFailure, hs, StatusOK] at h
    · simp [encryptor, hs]

theorem encryptorParent_failures (request : Request) (failures rest : List Attempt) :
    ∀ worker : Worker, (∀ a ∈ failures, a.clientFailure = true) →
      encryptorParent request (failures ++ rest) worker
        = encryptorParent request rest
            { worker with calls := worker.calls ++ List.replicate failures.length request } := by
  induction failures with
  | nil => intro worker _; simp
  | cons a fs ih =>
    intro worker h
    obtain ⟨err, herr⟩ := encryptor_clientFailure worker request a (h a (List.mem_cons_self _ _))
    show encryptorParent request (a :: (fs ++ rest)) worker = _
    simp only [encryptorParent, herr]
    rw [ih _ (fun a' ha' => h a' (List.mem_cons_of_mem _ ha'))]
    simp [List.replicate_succ]

theorem encryptorParent_all_fail (request : Request) (attempts : List Attempt) :
    ∀ worker : Worker, (∀ a ∈ attempts, a.clientFailure = true ∨ a = .requestError) →
      ∃ still : Worker, encryptorParent request attempts worker = .running still ∧
        still.scheduler = worker.scheduler := by
  induction attempts with
  | nil => intro worker _; exact ⟨worker, rfl, rfl⟩
  | cons a rest ih =>
    intro worker h
    have hrest : ∀ a' ∈ rest, a'.clientFailure = true ∨ a' = .requestError :=
      fun a' ha' => h a' (List.mem_cons_of_mem _ ha')
    rcases h a (List.mem_cons_self _ _) with hf | hr
    · obtain ⟨err, herr⟩ := encryptor_clientFailure worker request a hf
      simp only [encryptorParent, herr]
      exact ih _ hrest
    · subst hr
      simp only [encryptorParent, encryptor]
      exact ih _ hrest

theorem encryptorParent_success (request : Request) (s : String) (worker : Worker)
    (hroom : worker.scheduler.Encryptors.buf.length < worker.scheduler.Encryptors.cap) :
    encryptorParent request [.response 200 (some s)] worker
      = .returned none
          { scheduler :=
              { Encrypt := worker.scheduler.Encrypt,
                Store := worker.scheduler.Store ++
                  [{ RequestId := request.RequestId, Signature := s, Add := true }],
                Encryptors := { worker.scheduler.Encryptors with
                  buf := worker.scheduler.Encryptors.buf ++ [()] } },
            calls := worker.calls ++ [request] } := by
  simp [encryptorParent, encryptor, StatusOK, Chan.trySend, hroom]

/-- Claim C17. A worker of a reachable pool that meets `k` failures of the signing client and
then a success with signature `s` has called the client `k + 1` times, each time with its job,
has sent exactly one command on `Store`, `{job id, s, Add = true}`, and has given exactly one
token back; and after any number of failed attempts alone it is still retrying, having sent
nothing on `Store` and given no token back. -/
theorem encryptorParent_retries_until_success (max : Nat) (pool : Pool) (request : Request)
    (failures : List Attempt) (s : String)
    (hreach : Pool.Reachable max pool) (hworker : request ∈ pool.workers)
    (hfail : ∀ a ∈ failures, a.clientFailure = true) :
    (∃ done : Worker,
      encryptorParent request (failures ++ [.response 200 (some s)])
          { scheduler := pool.scheduler, calls := [] } = .returned none done ∧
      done.calls = List.replicate (failures.length + 1) request ∧
      done.scheduler.Store = pool.scheduler.Store ++
        [{ RequestId := request.RequestId, Signature := s, Add := true }] ∧
      done.scheduler.Encryptors.buf = pool.scheduler.Encryptors.buf ++ [()]) ∧
    ∀ attempts : List Attempt, (∀ a ∈ attempts, a.clientFailure = true ∨ a = .requestError) →
      ∃ still : Worker,
        encryptorParent request attempts { scheduler := pool.scheduler, calls := [] }
          = .running still ∧
        still.scheduler.Store = pool.scheduler.Store ∧
        still.scheduler.Encryptors = pool.scheduler.Encryptors := by
  constructor
  · obtain ⟨hcap, hsum⟩ := Pool.reachable_invariant max pool hreach
    have hpos : 0 < pool.workers.length := List.length_pos_of_mem hworker
    have hroom : pool.scheduler.Encryptors.buf.length < pool.scheduler.Encryptors.cap := by
      omega
    rw [encryptorParent_failures request failures _ _ hfail,
      encryptorParent_success request s _ hroom]
    refine ⟨_, rfl, ?_, rfl, rfl⟩
    simp [List.replicate_succ']
  · intro attempts h
    obtain ⟨still, hrun, hsch⟩ := encryptorParent_all_fail request attempts
      { scheduler := pool.scheduler, calls := [] } h
    exact ⟨still, hrun, by rw [hsch], by rw [hsch]⟩

theorem encryptorParent_retries_until_success_witness :
    ∃ done : Worker,
      encryptorParent { RequestId := "job", Message := "message" }
          ([.transportError, .response 503 (some "busy")] ++ [.response 200 (some "signature")])
          { scheduler := poolBusy.scheduler, calls := [] } = .returned none done ∧
      done.calls = List.replicate 3 { RequestId := "job", Message := "message" } ∧
      done.scheduler.Store = [{ RequestId := "job", Signature := "signature", Add := true }] ∧
      done.scheduler.Encryptors.buf = [(), ()] :=
  (encryptorParent_retries_until_success 2 poolBusy { RequestId := "job", Message := "message" }
    [.transportError, .response 503 (some "busy")] "signature" poolBusy_reachable
    (by decide) (by decide)).1

/-! ## Cancellation -/

theorem storer_iteration_returned (ctxDone : Bool) (now : Time) (storer next : Storer)
    (err : Option String) (h : storer.iteration ctxDone now = .returned err next) :
    err = none ∧ next = storer ∧ ctxDone = true := by
  unfold Storer.iteration at h
  cases ctxDone with
  | true =>
    simp only [if_true, Iter.returned.injEq] at h
    exact ⟨h.1.symm, h.2.symm, rfl⟩
  | false =>
    simp only [Bool.false_eq_true, if_false] at h
    split at h
    · simp at h
    · split at h
      · split at h <;> simp at h
      · simp at h

theorem tracker_iteration_returned (ctxDone : Bool) (tracker next : Tracker)
    (err : Option String) (h : tracker.iteration ctxDone = .returned err next) :
    err = none ∧ next = tracker ∧ ctxDone = true := by
  unfold Tracker.iteration at h
  cases ctxDone with
  | true =>
    simp only [if_true, Iter.returned.injEq] at h
    exact ⟨h.1.symm, h.2.symm, rfl⟩
  | false =>
    simp only [Bool.false_eq_true, if_false] at h
    split at h
    · simp at h
    · split at h
      · split at h <;> simp at h
      · simp at h

theorem pool_iteration_returned (ctxDone : Bool) (pool next : Pool)
    (err : Option String) (h : pool.iteration ctxDone = .returned err next) :
    err = none ∧ next = pool ∧ ctxDone = true := by
  unfold Pool.iteration at h
  split at h
  · unfold Pool.dispatch at h
    split at h <;> simp at h
  · cases ctxDone with
    | true =>
      simp only [if_true, Iter.returned.injEq] at h
      exact ⟨h.1.symm, h.2.symm, rfl⟩
    | false =>
      simp only [Bool.false_eq_true, if_false] at h
      split at h
      · simp at h
      · unfold Pool.dispatch at h
        split at h <;> simp at h

theorem storer_loop_returns_nil (env : List (Bool × Time)) :
    ∀ (storer next : Storer) (err : Option String),
      Storer.StoreSignedRequests env storer = .returned err next → err = none := by
  induction env with
  | nil => intro storer next err h; simp [Storer.StoreSignedRequests] at h
  | cons e env ih =>
    intro storer next err h
    obtain ⟨ctxDone, now⟩ := e
    simp only [Storer.StoreSignedRequests] at h
    cases hit : storer.iteration ctxDone now with
    | next s => rw [hit] at h; exact ih s next err h
    | returned err' s =>
      rw [hit] at h
      simp only [LoopResult.returned.injEq] at h
      rw [← h.1]
      exact (storer_iteration_returned ctxDone now storer s err' hit).1
    | blocked s => rw [hit] at h; simp at h
    | panicked s => rw [hit] at h; simp at h

theorem tracker_loop_returns_nil (env : List Bool) :
    ∀ (tracker next : Tracker) (err : Option String),
      Tracker.TrackPendingRequests env tracker = .returned err next → err = none := by
  induction env with
  | nil => intro tracker next err h; simp [Tracker.TrackPendingRequests] at h
  | cons ctxDone env ih =>
    intro tracker next err h
    simp only [Tracker.TrackPendingRequests] at h
    cases hit : tracker.iteration ctxDone with
    | next s => rw [hit] at h; exact ih s next err h
    | returned err' s =>
      rw [hit] at h
      simp only [LoopResult.returned.injEq] at h
      rw [← h.1]
      exact (tracker_iteration_returned ctxDone tracker s err' hit).1
    | blocked s => rw [hit] at h; simp at h
    | panicked s => rw [hit] at h; simp at h

theorem pool_loop_returns_nil (env : List Bool) :
    ∀ (pool next : Pool) (err : Option String),
      Pool.HandleEncryptRequests env pool = .returned err next → err = none := by
  induction env with
  | nil => intro pool next err h; simp [Pool.HandleEncryptRequests] at h
  | cons ctxDone env ih =>
    intro pool next err h
    simp only [Pool.HandleEncryptRequests] at h
    cases hit : pool.iteration ctxDone with
    | next s => rw [hit] at h; exact ih s next err h
    | returned err' s =>
      rw [hit] at h
      simp only [LoopResult.returned.injEq] at h
      rw [← h.1]
      exact (pool_iteration_returned ctxDone pool s err' hit).1
    | blocked s => rw [hit] at h; simp at h
    | panicked s => rw [hit] at h; simp at h

/-- Claim C18. Each of the three run loops, `StoreSignedRequests`, `TrackPendingRequests` and
`HandleEncryptRequests`, returns nil with its state untouched when the context is already
cancelled at the start of an iteration, and none of them returns a non-nil error on any run. -/
theorem run_loops_return_nil_on_cancellation (storer : Storer) (tracker : Tracker)
    (scheduler : EncryptorHandler) (workers : List Request) (now : Time)
    (envStore : List (Bool × Time)) (env : List Bool) :
    Storer.StoreSignedRequests ((true, now) :: envStore) storer = .returned none storer ∧
    Tracker.TrackPendingRequests (true :: env) tracker = .returned none tracker ∧
    Pool.HandleEncryptRequests (true :: env)
        { scheduler := scheduler, held := none, workers := workers }
      = .returned none { scheduler := scheduler, held := none, workers := workers } ∧
    (∀ (next : Storer) (err : String),
      Storer.StoreSignedRequests envStore storer ≠ .returned (some err) next) ∧
    (∀ (next : Tracker) (err : String),
      Tracker.TrackPendingRequests env tracker ≠ .returned (some err) next) ∧
    (∀ (held : Option Request) (next : Pool) (err : String),
      Pool.HandleEncryptRequests env { scheduler := scheduler, held := held, workers := workers }
        ≠ .returned (some err) next) := by
  refine ⟨rfl, rfl, rfl, ?_, ?_, ?_⟩
  · intro next err h
    have := storer_loop_returns_nil envStore storer next (some err) h
    simp at this
  · intro next err h
    have := tracker_loop_returns_nil env tracker next (some err) h
    simp at this
  · intro held next err h
    have := pool_loop_returns_nil env _ next (some err) h
    simp at this

/-! ## End to end -/

theorem GetEncryptionTiming_single (application : Application) (request : Request)
    (now : Time) (h : application.Encrypt.buf = [request]) :
    application.GetEncryptionTiming now = { TimeAdded := now, TimeEstimate := 1 } := by
  have hest := timeEstimate_eq_nat application now
  rw [h] at hest
  have hadd : (application.GetEncryptionTiming now).TimeAdded = now := rfl
  cases hT : application.GetEncryptionTiming now with
  | mk added estimate =>
    rw [hT] at hest hadd
    simp only at hest hadd
    rw [hest, hadd]
    norm_num

theorem AList.lookup_singleton_self {V : Type} (k : String) (v : V) :
    AList.lookup k (AList.singleton k v : AList (fun _ : String => V)) = some v := by
  rw [← AList.insert_empty]
  exact AList.lookup_insert _

/-- Claim C19. End-to-end success: from empty maps, an empty admission queue of capacity at
least one and a pool with a free token, the admission of a message, the tracker applying its
`Track` command, the dispatch of the job, a successful signing with signature `s`, the store
actor applying the resulting command and the tracker applying the forwarded removal all take
place, and afterwards a status query for the id answers 200 with `s` while the id is no longer
a key of the pending map. -/
theorem end_to_end_success (cap : Nat) (ready : Bool) (pool : Chan Unit)
    (requestId message s port : String) (t0 t1 t2 : Time)
    (hcap : 1 ≤ cap) (hpool : pool.buf ≠ []) :
    ∃ tracked dispatched signed stored removed : System,
      (System.newRequest
        { Encrypt := { cap := cap, buf := [], recvReady := ready }, Store := [], Track := [],
          Signatures := GoMap.make, Requests := GoMap.make, Encryptors := pool,
          held := none, workers := [], ServerPort := port }
        requestId message t0 []).1.track = some tracked ∧
      tracked.Requests.lookup requestId
        = some { RequestId := requestId, Message := message, TimeAdded := t0,
                 TimeEstimate := 1, Add := true } ∧
      tracked.dispatch = some dispatched ∧
      dispatched.sign { RequestId := requestId, Message := message }
        (.response 200 (some s)) = some signed ∧
      signed.store t1 = some stored ∧
      stored.track = some removed ∧
      (removed.query requestId t2).2
        = .fulfilled 200
            { Body := "Request processed successfully!", Signature := s, StatusCode := 200 } ∧
      removed.Requests.lookup requestId = none := by
  obtain ⟨token, tokens, htok⟩ := List.exists_cons_of_ne_nil hpool
  have hlt : 0 < cap := hcap
  have htiming :
      Application.GetEncryptionTiming
        { Encrypt := { cap := cap, buf := [{ RequestId := requestId, Message := message }],
                       recvReady := ready },
          Store := [], Signatures := GoMap.mk ∅, Track := [], Requests := GoMap.mk ∅,
          ServerPort := port } t0 = { TimeAdded := t0, TimeEstimate := 1 } :=
    GetEncryptionTiming_single _ _ t0 rfl
  refine ⟨
    { Encrypt := { cap := cap, buf := [{ RequestId := requestId, Message := message }],
                   recvReady := ready },
      Store := [], Track := [], Signatures := GoMap.make,
      Requests := .mk (AList.insert requestId
        { RequestId := requestId, Message := message, TimeAdded := t0, TimeEstimate := 1,
          Add := true } ∅),
      Encryptors := pool, held := none, workers := [], ServerPort := port },
    { Encrypt := { cap := cap, buf := [], recvReady := ready },
      Store := [], Track := [], Signatures := GoMap.make,
      Requests := .mk (AList.insert requestId
        { RequestId := requestId, Message := message, TimeAdded := t0, TimeEstimate := 1,
          Add := true } ∅),
      Encryptors := { pool with buf := tokens }, held := none,
      workers := [{ RequestId := requestId, Message := message }], ServerPort := port },
    { Encrypt := { cap := cap, buf := [], recvReady := ready },
      Store := [{ RequestId := requestId, Signature := s, Add := true }],
      Track := [], Signatures := GoMap.make,
      Requests := .mk (AList.insert requestId
        { RequestId := requestId, Message := message, TimeAdded := t0, TimeEstimate := 1,
          Add := true } ∅),
      Encryptors := { pool with buf := tokens }, held := none,
      workers := [{ RequestId := requestId, Message := message }], ServerPort := port },
    { Encrypt := { cap := cap, buf := [], recvReady := ready },
      Store := [],
      Track := [{ RequestId := requestId, Message := "", TimeAdded := t1, TimeEstimate := 0.0,
                  Add := false }],
      Signatures := .mk (AList.insert requestId s ∅),
      Requests := .mk (AList.insert requestId
        { RequestId := requestId, Message := message, TimeAdded := t0, TimeEstimate := 1,
          Add := true } ∅),
      Encryptors := { pool with buf := tokens }, held := none,
      workers := [{ RequestId := requestId, Message := message }], ServerPort := port },
    { Encrypt := { cap := cap, buf := [], recvReady := ready },
      Store := [], Track := [],
      Signatures := .mk (AList.insert requestId s ∅),
      Requests := .mk (AList.erase requestId (AList.insert requestId
        { RequestId := requestId, Message := message, TimeAdded := t0, TimeEstimate := 1,
          Add := true } ∅)),
      Encryptors := { pool with buf := tokens }, held := none,
      workers := [{ RequestId := requestId, Message := message }], ServerPort := port },
    ?_, ?_, ?_, ?_, ?_, ?_, ?_, ?_⟩
  · simp only [System.newRequest, System.toApplication, System.withApplication,
      Application.newRequestHandler, Chan.trySend, List.length_nil, hlt, if_true,
      List.nil_append, htiming, retrieveSignature, retryRetrieve,
      Retriever.RetrieveSignature, GoMap.lookup, GoMap.make, AList.lookup_empty, System.track,
      Tracker.iteration, GoMap.store]
    simp [htiming]
  · simp [GoMap.lookup, AList.lookup_singleton_self]
  · simp [System.dispatch, System.toEncryptorHandler, Pool.iteration, Pool.dispatch, htok]
  · simp [System.sign, System.toEncryptorHandler, encryptor, StatusOK]
  · simp [System.store, Storer.iteration, GoMap.store, GoMap.make]
  · simp [System.track, Tracker.iteration, GoMap.delete]
  · simp [System.query, System.toApplication, Application.currentRequestHandler, GoMap.lookup,
      StatusOK, AList.lookup_singleton_self]
  · simp [GoMap.lookup]

theorem end_to_end_success_witness :
    ∃ tracked dispatched signed stored removed : System,
      (System.newRequest
        { Encrypt := { cap := 1, buf := [], recvReady := true }, Store := [], Track := [],
          Signatures := GoMap.make, Requests := GoMap.make,
          Encryptors := { cap := 1, buf := [()], recvReady := false },
          held := none, workers := [], ServerPort := ":8080" }
        "job" "message" 0 []).1.track = some tracked ∧
      tracked.Requests.lookup "job"
        = some { RequestId := "job", Message := "message", TimeAdded := 0,
                 TimeEstimate := 1, Add := true } ∧
      tracked.dispatch = some dispatched ∧
      dispatched.sign { RequestId := "job", Message := "message" }
        (.response 200 (some "signature")) = some signed ∧
      signed.store 1 = some stored ∧
      stored.track = some removed ∧
      (removed.query "job" 2).2
        = .fulfilled 200
            { Body := "Request processed successfully!", Signature := "signature",
              StatusCode := 200 } ∧
      removed.Requests.lookup "job" = none :=
  end_to_end_success 1 true { cap := 1, buf := [()], recvReady := false }
    "job" "message" "signature" ":8080" 0 1 2 (by decide) (by decide)

/-! ## Persistence round trip -/

theorem SaveState_files (signatures : GoMap String) (pending : GoMap PendingRequest)
    (jsonSignatures : Json String) (jsonPending : Json PendingRequest) (fs : FileSystem)
    (maxQueue maxCalls : Int) (port level : String) (signaturesBytes pendingBytes : Bytes)
    (hms : jsonSignatures.MarshalIndent signatures = .ok signaturesBytes)
    (hmp : jsonPending.MarshalIndent pending = .ok pendingBytes) :
    SaveState signatures pending (SetConfigs maxQueue maxCalls port level) jsonSignatures
        jsonPending fs true true "./internal/persistence/signatures.json"
      = some signaturesBytes ∧
    SaveState signatures pending (SetConfigs maxQueue maxCalls port level) jsonSignatures
        jsonPending fs true true "./internal/persistence/pending.json"
      = some pendingBytes := by
  simp [SaveState, SetConfigs, FileSystem.WriteFile, hms, hmp]

/-- After `SaveState` has marshalled and written both snapshots, the loaders return the maps
that `json.Unmarshal` reads from the written bytes, whatever maps were saved: the state is
restored exactly as far as `encoding/json` reads back what it wrote. `InstantiateSignatures`
returns the map read from the signatures file, and `InstantiateCurrentRequests`, given enough
room in the queue, returns the map read from the pending file and replays its entries with
the messages read. -/
theorem loaders_return_what_unmarshal_reads (signatures restoredSignatures : GoMap String)
    (pending restoredPending : GoMap PendingRequest)
    (jsonSignatures : Json String) (jsonPending : Json PendingRequest) (fs : FileSystem)
    (encrypt : Chan Request) (maxQueue maxCalls : Int) (port level : String)
    (signaturesBytes pendingBytes : Bytes)
    (hms : jsonSignatures.MarshalIndent signatures = .ok signaturesBytes)
    (hmp : jsonPending.MarshalIndent pending = .ok pendingBytes)
    (hnes : signaturesBytes ≠ []) (hnep : pendingBytes ≠ [])
    (hus : jsonSignatures.Unmarshal signaturesBytes = .ok restoredSignatures)
    (hup : jsonPending.Unmarshal pendingBytes = .ok restoredPending)
    (hroom : encrypt.buf.length + restoredPending.len ≤ encrypt.cap) :
    InstantiateSignatures
        (SaveState signatures pending (SetConfigs maxQueue maxCalls port level) jsonSignatures
          jsonPending fs true true)
        jsonSignatures (SetConfigs maxQueue maxCalls port level).SignaturesPersistenceLocation
      = restoredSignatures ∧
    InstantiateCurrentRequests
        (SaveState signatures pending (SetConfigs maxQueue maxCalls port level) jsonSignatures
          jsonPending fs true true)
        jsonPending encrypt (SetConfigs maxQueue maxCalls port level).PendingPersistenceLocation
      = .returned restoredPending
          { encrypt with
            buf := encrypt.buf ++
              restoredPending.range.map
                (fun e => { RequestId := e.1, Message := e.2.Message }) } := by
  obtain ⟨hfs, hfp⟩ := SaveState_files signatures pending jsonSignatures jsonPending fs
    maxQueue maxCalls port level signaturesBytes pendingBytes hms hmp
  constructor
  · have hpos : signaturesBytes.length > 0 := List.length_pos.mpr hnes
    simp only [SetConfigs] at hfs
    simp only [InstantiateSignatures, FileSystem.ReadFile, SetConfigs, hfs, hus, hpos, if_true]
  · exact InstantiateCurrentRequests_with_room _ jsonPending encrypt
      "./internal/persistence/pending.json" pendingBytes restoredPending hfp hnep hup hroom

/-! ## Retrieval at most once -/

theorem System.query_effect (sys : System) (id : String) (now : Time) :
    (sys.query id now).1.Signatures = sys.Signatures ∧
    ((sys.query id now).1.Store = sys.Store ∨
      ∃ s, (sys.query id now).1.Store = sys.Store ++ [{ RequestId := id, Signature := s, Add := false }]) ∧
    (sys.Signatures.lookup id = none → (sys.query id now).2.status ≠ 200) ∧
    (∀ s, sys.Signatures.lookup id = some s → (sys.query id now).2.status = 200) := by
  simp only [System.query, System.withApplication, System.toApplication,
    Application.currentRequestHandler]
  cases hs : sys.Signatures.lookup id with
  | none =>
    cases hp : sys.Requests.lookup id <;>
      simp [Response.status, StatusAccepted, StatusNotFound]
  | some s => simp [Response.status, StatusOK]

theorem System.store_effect (sys next : System) (now : Time) (h : sys.store now = some next) :
    ∃ command rest, sys.Store = command :: rest ∧ next.Store = rest ∧
      next.Encrypt = sys.Encrypt ∧ next.held = sys.held ∧ next.workers = sys.workers ∧
      ((command.Add = true ∧
          sys.Signatures.store command.RequestId command.Signature = some next.Signatures ∧
          ∃ removal : PendingRequest, next.Track = sys.Track ++ [removal] ∧
            removal.Add = false ∧ removal.RequestId = command.RequestId) ∨
        (command.Add = false ∧ next.Signatures = sys.Signatures.delete command.RequestId ∧
          next.Track = sys.Track)) := by
  simp only [System.store, Storer.iteration, Bool.false_eq_true, if_false] at h
  cases hq : sys.Store with
  | nil => rw [hq] at h; simp at h
  | cons command rest =>
    rw [hq] at h
    refine ⟨command, rest, rfl, ?_⟩
    cases hadd : command.Add with
    | true =>
      simp only [hadd, if_true] at h
      cases hst : sys.Signatures.store command.RequestId command.Signature with
      | none => rw [hst] at h; simp at h
      | some sigs =>
        rw [hst] at h
        simp only [Option.some.injEq] at h
        subst h
        exact ⟨rfl, rfl, rfl, rfl, Or.inl ⟨rfl, rfl, _, rfl, rfl, rfl⟩⟩
    | false =>
      simp only [hadd, Bool.false_eq_true, if_false, Option.some.injEq] at h
      subst h
      exact ⟨rfl, rfl, rfl, rfl, Or.inr ⟨rfl, rfl, rfl⟩⟩

theorem GoMap.lookup_store_ne {V : Type} (m next : GoMap V) (k k' : String) (v : V)
    (h : m.store k v = some next) (hne : k' ≠ k) : next.lookup k' = m.lookup k' := by
  cases m with
  | nil => simp [GoMap.store] at h
  | mk a =>
    simp only [GoMap.store, Option.some.injEq] at h
    subst h
    simp [GoMap.lookup, hne]

theorem retrieval_absent_stays (id : String) (sys next : System)
    (hstep : System.RetrievalStep sys next)
    (habsent : sys.Signatures.lookup id = none)
    (hqueue : ∀ c ∈ sys.Store, c.RequestId = id → c.Add = false) :
    next.Signatures.lookup id = none ∧
    ∀ c ∈ next.Store, c.RequestId = id → c.Add = false := by
  cases hstep with
  | query requestId now =>
    obtain ⟨hsig, hstore, _, _⟩ := System.query_effect sys requestId now
    refine ⟨by rw [hsig]; exact habsent, ?_⟩
    rcases hstore with h | ⟨s, h⟩
    · rw [h]; exact hqueue
    · rw [h]
      intro c hc hid
      rcases List.mem_append.mp hc with hc | hc
      · exact hqueue c hc hid
      · simp only [List.mem_singleton] at hc
        rw [hc]
  | store _ now h =>
    obtain ⟨command, rest, hq, hrest, _, _, _, hcase⟩ := System.store_effect sys next now h
    have hcmd : command ∈ sys.Store := by rw [hq]; exact List.mem_cons_self _ _
    constructor
    · rcases hcase with ⟨hadd, hst, _⟩ | ⟨hadd, hsig, _⟩
      · have hne : id ≠ command.RequestId := by
          intro heq
          have := hqueue command hcmd heq.symm
          rw [hadd] at this
          simp at this
        rw [GoMap.lookup_store_ne _ _ _ _ _ hst hne]
        exact habsent
      · rw [hsig]
        by_cases heq : id = command.RequestId
        · rw [heq]; exact GoMap.lookup_delete_self _ _
        · rw [GoMap.lookup_delete_ne _ heq]; exact habsent
    · intro c hc hid
      rw [hrest] at hc
      exact hqueue c (by rw [hq]; exact List.mem_cons_of_mem _ hc) hid

theorem retrieval_absent_forever (id : String) (sys final : System)
    (hexec : Relation.ReflTransGen System.RetrievalStep sys final)
    (habsent : sys.Signatures.lookup id = none)
    (hqueue : ∀ c ∈ sys.Store, c.RequestId = id → c.Add = false) :
    final.Signatures.lookup id = none ∧
    ∀ c ∈ final.Store, c.RequestId = id → c.Add = false := by
  induction hexec with
  | refl => exact ⟨habsent, hqueue⟩
  | tail _ hstep ih => exact retrieval_absent_stays id _ _ hstep ih.1 ih.2

/-- Claim C21 fails as stated: after the store actor has applied the single insertion of the
signature of `job`, two status queries in a row both answer 200, the removal sent by the first
being still on `Store` when the second reads the map; two removals are then waiting. -/
theorem signature_retrieved_twice :
    ∃ stored : System,
      signedOnce.store 0 = some stored ∧
      stored.Signatures.lookup "job" = some "signature" ∧
      (stored.query "job" 1).2.status = 200 ∧
      ((stored.query "job" 1).1.query "job" 2).2.status = 200 ∧
      ((stored.query "job" 1).1.query "job" 2).1.Store
        = [{ RequestId := "job", Signature := "signature", Add := false },
           { RequestId := "job", Signature := "signature", Add := false }] := by
  refine ⟨{ signedOnce with
      Store := [],
      Track := [{ RequestId := "job", Message := "", TimeAdded := 0, TimeEstimate := 0.0,
                  Add := false }],
      Signatures := .mk (AList.insert "job" "signature" ∅) }, rfl, by decide, ?_, ?_, ?_⟩
  · simp [System.query, System.toApplication, Application.currentRequestHandler, signedOnce,
      GoMap.lookup, AList.lookup_singleton_self, Response.status, StatusOK]
  · simp [System.query, System.toApplication, System.withApplication,
      Application.currentRequestHandler, signedOnce,
      GoMap.lookup, AList.lookup_singleton_self, Response.status, StatusOK]
  · simp [System.query, System.toApplication, System.withApplication,
      Application.currentRequestHandler, signedOnce,
      GoMap.lookup, AList.lookup_singleton_self]

/-- Claim C21, amended. A status query that finds the id in the signature map answers 200 and
sends one removal for it on `Store`; and once the store actor has applied a removal for the id,
no insertion for the id waiting behind it, every later status query for the id misses, in
every continuation by status queries and store steps. -/
theorem retrieval_misses_once_removed (sys : System) (id s : String)
    (rest : List SignedRequest) (t : Time)
    (hhead : sys.Store = { RequestId := id, Signature := s, Add := false } :: rest)
    (hqueue : ∀ c ∈ rest, c.RequestId = id → c.Add = false) :
    (∀ (before : System) (signature : String) (now : Time),
      before.Signatures.lookup id = some signature →
      (before.query id now).2.status = 200 ∧
      (before.query id now).1.Store
        = before.Store ++ [{ RequestId := id, Signature := signature, Add := false }]) ∧
    ∃ removed : System,
      sys.store t = some removed ∧
      removed.Signatures.lookup id = none ∧
      ∀ final : System, Relation.ReflTransGen System.RetrievalStep removed final →
        ∀ now : Time, (final.query id now).2.status ≠ 200 := by
  constructor
  · intro before signature now h
    simp [System.query, System.withApplication, System.toApplication,
      Application.currentRequestHandler, h, Response.status, StatusOK]
  · refine ⟨{ sys with Store := rest, Signatures := sys.Signatures.delete id }, ?_, ?_, ?_⟩
    · simp [System.store, Storer.iteration, hhead]
    · exact GoMap.lookup_delete_self _ _
    · intro final hexec now
      have h := retrieval_absent_forever id _ final hexec
        (GoMap.lookup_delete_self _ _) hqueue
      exact (System.query_effect final id now).2.2.1 h.1

theorem retrieval_misses_once_removed_witness :
    retrievedOnce.Store = [{ RequestId := "job", Signature := "signature", Add := false }] ∧
    ∃ removed : System,
      retrievedOnce.store 0 = some removed ∧
      removed.Signatures.lookup "job" = none ∧
      ∀ final : System, Relation.ReflTransGen System.RetrievalStep removed final →
        ∀ now : Time, (final.query "job" now).2.status ≠ 200 :=
  ⟨rfl,
    (retrieval_misses_once_removed retrievedOnce "job" "signature" [] 0 rfl
      (by simp)).2⟩

/-! ## Nil maps from snapshots -/

/-- Claim C24 fails on the code: on a snapshot file holding the document `null`, which
`json.Unmarshal` accepts leaving the map variable nil, `InstantiateSignatures` and
`InstantiateCurrentRequests` return the nil map, and the first insertion applied to it by
`StoreSignedRequests` or by `TrackPendingRequests` panics. -/
theorem loaders_return_nil_on_null :
    InstantiateSignatures (oneFile "signatures.json" nullDocument)
        (jsonFixed nullDocument GoMap.nil) "signatures.json" = GoMap.nil ∧
    InstantiateCurrentRequests (oneFile "pending.json" nullDocument)
        (jsonFixed nullDocument GoMap.nil) emptyQueue "pending.json"
      = .returned GoMap.nil emptyQueue ∧
    Storer.StoreSignedRequests [(false, 0)]
        { Store := [{ RequestId := "job", Signature := "signature", Add := true }],
          Track := [],
          Signatures := InstantiateSignatures (oneFile "signatures.json" nullDocument)
            (jsonFixed nullDocument GoMap.nil) "signatures.json" }
      = .panicked { Store := [], Track := [], Signatures := GoMap.nil } ∧
    Tracker.TrackPendingRequests [false] { Track := [jobSeven], Requests := GoMap.nil }
      = .panicked { Track := [], Requests := GoMap.nil } := by
  have hsig : InstantiateSignatures (oneFile "signatures.json" nullDocument)
      (jsonFixed nullDocument GoMap.nil) "signatures.json" = GoMap.nil := by
    simp [InstantiateSignatures, FileSystem.ReadFile, oneFile, jsonFixed, nullDocument]
  refine ⟨hsig, ?_, ?_, ?_⟩
  · simp [InstantiateCurrentRequests, FileSystem.ReadFile, oneFile, jsonFixed, nullDocument,
      GoMap.range, replay]
  · rw [hsig]
    rfl
  · rfl

/-! ## Recovery and the capacity of the queue -/

theorem System.newRequest_pending (sys : System) (id message : String) (now : Time)
    (hbuf : sys.Encrypt.buf = []) (hcap : 0 < sys.Encrypt.cap)
    (habsent : sys.Signatures.lookup id = none) :
    (sys.newRequest id message now []).1
      = { sys with
          Encrypt := { sys.Encrypt with buf := [{ RequestId := id, Message := message }] },
          Track := sys.Track ++
            [{ RequestId := id, Message := message, TimeAdded := now, TimeEstimate := 1,
               Add := true }] } := by
  have htiming :
      Application.GetEncryptionTiming
        { Encrypt := { sys.Encrypt with buf := [{ RequestId := id, Message := message }] },
          Store := sys.Store, Signatures := sys.Signatures, Track := sys.Track,
          Requests := sys.Requests, ServerPort := sys.ServerPort } now
        = { TimeAdded := now, TimeEstimate := 1 } :=
    GetEncryptionTiming_single _ _ now rfl
  simp only [System.newRequest, System.toApplication, System.withApplication,
      Application.newRequestHandler, Chan.trySend, hbuf, List.length_nil, hcap, if_true,
      List.nil_append, htiming, retrieveSignature, retryRetrieve,
      Retriever.RetrieveSignature, habsent]

theorem overfull_reachable :
    Relation.ReflTransGen Pipeline.AtomicStep
      (Pipeline.start 1 { cap := 1, buf := [()], recvReady := false } ":8080") overfull := by
  have s1 : Pipeline.AtomicStep
      (Pipeline.start 1 { cap := 1, buf := [()], recvReady := false } ":8080")
      { sys := { overfull.sys with
          Encrypt := { cap := 1, buf := [{ RequestId := "a", Message := "first" }],
                       recvReady := false },
          Track := [firstUpsert], Requests := GoMap.make,
          Encryptors := { cap := 1, buf := [()], recvReady := false }, workers := [] },
        announcing := [], applied := [] } := by
    have h := Pipeline.AtomicStep.admission
      (Pipeline.start 1 { cap := 1, buf := [()], recvReady := false } ":8080")
      "a" "first" 0 []
    rw [System.newRequest_pending _ _ _ _ rfl (by decide) (by decide)] at h
    exact h
  have s2 := Pipeline.ActorStep.track
    { sys := { overfull.sys with
        Encrypt := { cap := 1, buf := [{ RequestId := "a", Message := "first" }],
                     recvReady := false },
        Track := [firstUpsert], Requests := GoMap.make,
        Encryptors := { cap := 1, buf := [()], recvReady := false }, workers := [] },
      announcing := [], applied := [] }
    firstUpsert []
    { overfull.sys with
      Encrypt := { cap := 1, buf := [{ RequestId := "a", Message := "first" }],
                   recvReady := false },
      Requests := .mk (AList.insert "a" firstUpsert ∅),
      Encryptors := { cap := 1, buf := [()], recvReady := false }, workers := [] }
    rfl rfl
  have s3 := Pipeline.ActorStep.dispatch
    { sys := { overfull.sys with
        Encrypt := { cap := 1, buf := [{ RequestId := "a", Message := "first" }],
                     recvReady := false },
        Requests := .mk (AList.insert "a" firstUpsert ∅),
        Encryptors := { cap := 1, buf := [()], recvReady := false }, workers := [] },
      announcing := [], applied := [firstUpsert] }
    { overfull.sys with
      Encrypt := { cap := 1, buf := [], recvReady := false },
      Requests := .mk (AList.insert "a" firstUpsert ∅) }
    rfl
  have s4 : Pipeline.AtomicStep
      { sys := { overfull.sys with
          Encrypt := { cap := 1, buf := [], recvReady := false },
          Requests := .mk (AList.insert "a" firstUpsert ∅) },
        announcing := [], applied := [firstUpsert] }
      { sys := { overfull.sys with
          Track := [secondUpsert],
          Requests := .mk (AList.insert "a" firstUpsert ∅) },
        announcing := [], applied := [firstUpsert] } := by
    have h := Pipeline.AtomicStep.admission
      { sys := { overfull.sys with
          Encrypt := { cap := 1, buf := [], recvReady := false },
          Requests := .mk (AList.insert "a" firstUpsert ∅) },
        announcing := [], applied := [firstUpsert] }
      "b" "second" 0 []
    rw [System.newRequest_pending _ _ _ _ rfl (by decide) (by decide)] at h
    exact h
  have s5 := Pipeline.ActorStep.track
    { sys := { overfull.sys with
        Track := [secondUpsert],
        Requests := .mk (AList.insert "a" firstUpsert ∅) },
      announcing := [], applied := [firstUpsert] }
    secondUpsert [] overfull.sys rfl rfl
  exact ((((Relation.ReflTransGen.single s1).tail (Pipeline.AtomicStep.actor _ _ s2)).tail
    (Pipeline.AtomicStep.actor _ _ s3)).tail s4).tail (Pipeline.AtomicStep.actor _ _ s5)

/-- Claim C23 fails on the code: with a queue of capacity one and one token, admitting a
request, tracking and dispatching it, then admitting and tracking a second one gives a pending
map of two entries; the snapshot saved in that state, replayed by `InstantiateCurrentRequests`
into the empty queue of capacity one, blocks. -/
theorem pending_exceeds_capacity_and_replay_blocks :
    Relation.ReflTransGen Pipeline.AtomicStep
      (Pipeline.start 1 { cap := 1, buf := [()], recvReady := false } ":8080") overfull ∧
    overfull.sys.Encrypt.cap = 1 ∧
    overfull.sys.Requests.len = 2 ∧
    InstantiateCurrentRequests
        (SaveState overfull.sys.Signatures overfull.sys.Requests
          (SetConfigs 1 1 ":8080" "debug") (jsonFixed emptyObject overfull.sys.Signatures)
          (jsonFixed pendingDocument overfull.sys.Requests) noFiles true true)
        (jsonFixed pendingDocument overfull.sys.Requests)
        { cap := 1, buf := [], recvReady := false }
        (SetConfigs 1 1 ":8080" "debug").PendingPersistenceLocation
      = .blocked { cap := 1, buf := [], recvReady := false } := by
  refine ⟨?_, rfl, rfl, ?_⟩
  · exact overfull_reachable
  · simp [InstantiateCurrentRequests, FileSystem.ReadFile, SaveState, SetConfigs,
      FileSystem.WriteFile, jsonFixed, pendingDocument, emptyObject, overfull, GoMap.range,
      replay, Chan.trySend]

/-! ## Order of the track commands -/

theorem GetEncryptionTiming_empty (application : Application) (now : Time)
    (h : application.Encrypt.buf = []) :
    application.GetEncryptionTiming now = { TimeAdded := now, TimeEstimate := 1 } := by
  have hest := timeEstimate_eq_nat application now
  rw [h] at hest
  have hadd : (application.GetEncryptionTiming now).TimeAdded = now := rfl
  cases hT : application.GetEncryptionTiming now with
  | mk added estimate =>
    rw [hT] at hest hadd
    simp only at hest hadd
    rw [hest, hadd]
    norm_num

/-- Claim C22 fails as stated, in two ways. When the request put on `Encrypt` by
`newRequestHandler` is dispatched, signed and stored before the handler sends its command on
`Track`, the tracker applies the removal for the id first and the insertion after it, and the
id stays in the pending map although its signature is stored. And when `main` starts from a
pending snapshot with the entry `job`, the replayed request is dispatched, signed and stored
and the tracker applies its removal, with no insertion applied in the execution at all. -/
theorem removal_applied_before_upsert :
    (Relation.ReflTransGen Pipeline.Step
      (Pipeline.start 1 { cap := 1, buf := [()], recvReady := false } ":8080") overtaken ∧
    overtaken.applied = [jobRemoval, jobUpsert] ∧
    jobRemoval.Add = false ∧ jobRemoval.RequestId = "job" ∧
    jobUpsert.Add = true ∧ jobUpsert.RequestId = "job" ∧
    overtaken.sys.Signatures.lookup "job" = some "signature" ∧
    overtaken.sys.Requests.lookup "job" = some jobUpsert) ∧
    (Pipeline.boot (oneFile "./internal/persistence/pending.json" pendingDocument)
      (jsonFixed emptyObject GoMap.make)
      (jsonFixed pendingDocument (.mk (AList.insert "job" jobUpsert ∅)))
      (SetConfigs 1 1 ":8080" "debug") { cap := 1, buf := [()], recvReady := false }
      = some recoveredStart ∧
    Relation.ReflTransGen Pipeline.AtomicStep recoveredStart recoveredRun ∧
    recoveredRun.applied = [jobRemoval]) := by
  refine ⟨⟨?_, rfl, rfl, rfl, rfl, rfl, by decide, by decide⟩, ⟨?_, ?_, rfl⟩⟩
  rotate_left
  · rfl
  · have r1 := Pipeline.ActorStep.dispatch recoveredStart
      { recoveredRun.sys with
        Signatures := GoMap.make, Requests := .mk (AList.insert "job" jobUpsert ∅) }
      rfl
    have r2 := Pipeline.ActorStep.sign
      { sys := { recoveredRun.sys with
          Signatures := GoMap.make, Requests := .mk (AList.insert "job" jobUpsert ∅) },
        announcing := [], applied := [] }
      { RequestId := "job", Message := "message" } (.response 200 (some "signature"))
      { recoveredRun.sys with
        Store := [{ RequestId := "job", Signature := "signature", Add := true }],
        Signatures := GoMap.make, Requests := .mk (AList.insert "job" jobUpsert ∅) }
      rfl
    have r3 := Pipeline.ActorStep.store
      { sys := { recoveredRun.sys with
          Store := [{ RequestId := "job", Signature := "signature", Add := true }],
          Signatures := GoMap.make, Requests := .mk (AList.insert "job" jobUpsert ∅) },
        announcing := [], applied := [] }
      0
      { recoveredRun.sys with
        Track := [jobRemoval], Requests := .mk (AList.insert "job" jobUpsert ∅) }
      rfl
    have r4 := Pipeline.ActorStep.track
      { sys := { recoveredRun.sys with
          Track := [jobRemoval], Requests := .mk (AList.insert "job" jobUpsert ∅) },
        announcing := [], applied := [] }
      jobRemoval [] recoveredRun.sys rfl rfl
    exact (((Relation.ReflTransGen.single (Pipeline.AtomicStep.actor _ _ r1)).tail
      (Pipeline.AtomicStep.actor _ _ r2)).tail (Pipeline.AtomicStep.actor _ _ r3)).tail
      (Pipeline.AtomicStep.actor _ _ r4)
  have e1 := Pipeline.Step.enqueue
    (Pipeline.start 1 { cap := 1, buf := [()], recvReady := false } ":8080")
    "job" "message"
    { cap := 1, buf := [{ RequestId := "job", Message := "message" }], recvReady := false }
    rfl
  have e2 := Pipeline.ActorStep.dispatch
    { sys := { overtaken.sys with
        Encrypt := { cap := 1, buf := [{ RequestId := "job", Message := "message" }],
                     recvReady := false },
        Signatures := GoMap.make, Requests := GoMap.make,
        Encryptors := { cap := 1, buf := [()], recvReady := false }, workers := [] },
      announcing := [{ RequestId := "job", Message := "message" }], applied := [] }
    { overtaken.sys with Signatures := GoMap.make, Requests := GoMap.make }
    rfl
  have e3 := Pipeline.ActorStep.sign
    { sys := { overtaken.sys with Signatures := GoMap.make, Requests := GoMap.make },
      announcing := [{ RequestId := "job", Message := "message" }], applied := [] }
    { RequestId := "job", Message := "message" } (.response 200 (some "signature"))
    { overtaken.sys with
      Store := [{ RequestId := "job", Signature := "signature", Add := true }],
      Signatures := GoMap.make, Requests := GoMap.make }
    rfl
  have e4 := Pipeline.ActorStep.store
    { sys := { overtaken.sys with
        Store := [{ RequestId := "job", Signature := "signature", Add := true }],
        Signatures := GoMap.make, Requests := GoMap.make },
      announcing := [{ RequestId := "job", Message := "message" }], applied := [] }
    0
    { overtaken.sys with Track := [jobRemoval], Requests := GoMap.make }
    rfl
  have e5 := Pipeline.ActorStep.track
    { sys := { overtaken.sys with Track := [jobRemoval], Requests := GoMap.make },
      announcing := [{ RequestId := "job", Message := "message" }], applied := [] }
    jobRemoval []
    { overtaken.sys with Requests := .mk (AList.erase "job" ∅) }
    rfl rfl
  have e6 : Pipeline.Step
      { sys := { overtaken.sys with Requests := .mk (AList.erase "job" ∅) },
        announcing := [{ RequestId := "job", Message := "message" }],
        applied := [jobRemoval] }
      { sys := { overtaken.sys with
          Track := [jobUpsert], Requests := .mk (AList.erase "job" ∅) },
        announcing := [], applied := [jobRemoval] } := by
    have h := Pipeline.Step.announce
      { sys := { overtaken.sys with Requests := .mk (AList.erase "job" ∅) },
        announcing := [{ RequestId := "job", Message := "message" }],
        applied := [jobRemoval] }
      { RequestId := "job", Message := "message" } 0 (by decide)
    rw [GetEncryptionTiming_empty _ 0 rfl] at h
    exact h
  have e7 := Pipeline.ActorStep.track
    { sys := { overtaken.sys with
        Track := [jobUpsert], Requests := .mk (AList.erase "job" ∅) },
      announcing := [], applied := [jobRemoval] }
    jobUpsert [] overtaken.sys rfl rfl
  exact ((((((Relation.ReflTransGen.single e1).tail (Pipeline.Step.actor _ _ e2)).tail
    (Pipeline.Step.actor _ _ e3)).tail (Pipeline.Step.actor _ _ e4)).tail
    (Pipeline.Step.actor _ _ e5)).tail e6).tail (Pipeline.Step.actor _ _ e7)

theorem newRequestHandler_two_sends (application : Application) (requestId message : String)
    (now : Time) (later : List (GoMap String)) (ch : Chan Request)
    (hsend : application.Encrypt.trySend { RequestId := requestId, Message := message }
      = .sent ch) :
    (application.newRequestHandler requestId message now later).1.Encrypt = ch ∧
    (application.newRequestHandler requestId message now later).1.Track
      = application.Track ++
        [{ RequestId := requestId, Message := message,
           toTiming := ({ application with Encrypt := ch } : Application).GetEncryptionTiming now,
           Add := true }] := by
  simp only [Application.newRequestHandler, hsend]
  split <;> simp

theorem announcedIn_append {known : String → Prop} (log extra : List PendingRequest)
    (id : String) (h : announcedIn known log id) : announcedIn known (log ++ extra) id := by
  rcases h with ⟨u, hu, hadd, hid⟩ | hk
  · exact Or.inl ⟨u, List.mem_append_left _ hu, hadd, hid⟩
  · exact Or.inr hk

theorem announcedIn_last {known : String → Prop} (log : List PendingRequest)
    (u : PendingRequest) (hadd : u.Add = true) :
    announcedIn known (log ++ [u]) u.RequestId :=
  Or.inl ⟨u, by simp, hadd, rfl⟩

theorem orderedLog_snoc {known : String → Prop} (log : List PendingRequest)
    (c : PendingRequest) (h : orderedLog known log)
    (hc : c.Add = false → announcedIn known log c.RequestId) :
    orderedLog known (log ++ [c]) := by
  intro pre d post hsplit hd
  rcases List.eq_nil_or_concat post with hpost | ⟨post', x, hpost⟩
  · subst hpost
    have h1 := List.append_inj' hsplit rfl
    obtain ⟨hlog, hlast⟩ := h1
    simp only [List.cons.injEq, and_true] at hlast
    subst hlast
    rw [← hlog]
    exact hc hd
  · subst hpost
    have hsplit' : log ++ [c] = (pre ++ d :: post') ++ [x] := by
      rw [hsplit]; simp
    have h1 := List.append_inj' hsplit' rfl
    exact h pre d post' h1.1 hd

theorem orderedLog_prefix {known : String → Prop} (log extra : List PendingRequest)
    (h : orderedLog known (log ++ extra)) : orderedLog known log := by
  intro pre c post hsplit hc
  exact h pre c (post ++ extra) (by rw [hsplit]; simp) hc

theorem System.newRequest_effect (sys : System) (id message : String) (now : Time)
    (later : List (GoMap String)) :
    (sys.newRequest id message now later).1 = sys ∨
    ((sys.newRequest id message now later).1.held = sys.held ∧
      (sys.newRequest id message now later).1.workers = sys.workers ∧
      ((sys.newRequest id message now later).1.Encrypt.buf = sys.Encrypt.buf ∨
        (sys.newRequest id message now later).1.Encrypt.buf
          = sys.Encrypt.buf ++ [{ RequestId := id, Message := message }]) ∧
      ((sys.newRequest id message now later).1.Store = sys.Store ∨
        ∃ s, (sys.newRequest id message now later).1.Store
          = sys.Store ++ [{ RequestId := id, Signature := s, Add := false }]) ∧
      ∃ u : PendingRequest, u.Add = true ∧ u.RequestId = id ∧
        (sys.newRequest id message now later).1.Track = sys.Track ++ [u]) := by
  simp only [System.newRequest, System.withApplication, System.toApplication,
    Application.newRequestHandler]
  cases hsend : sys.Encrypt.trySend { RequestId := id, Message := message } with
  | wouldBlock => left; rfl
  | sent ch =>
    right
    have hbuf : ch.buf = sys.Encrypt.buf ++ [{ RequestId := id, Message := message }] := by
      simp only [Chan.trySend] at hsend
      split at hsend
      · injection hsend with h; rw [← h]
      · split at hsend <;> simp at hsend
    simp only
    split
    · exact ⟨trivial, trivial, Or.inr hbuf, Or.inl rfl, _, rfl, rfl, rfl⟩
    · exact ⟨trivial, trivial, Or.inr hbuf, Or.inr ⟨_, rfl⟩, _, rfl, rfl, rfl⟩
  | handedOff ch v =>
    right
    have hbuf : ch.buf = sys.Encrypt.buf := by
      simp only [Chan.trySend] at hsend
      split at hsend
      · simp at hsend
      · split at hsend
        · injection hsend with h _; rw [← h]
        · simp at hsend
    simp only
    split
    · exact ⟨trivial, trivial, Or.inl hbuf, Or.inl rfl, _, rfl, rfl, rfl⟩
    · exact ⟨trivial, trivial, Or.inl hbuf, Or.inr ⟨_, rfl⟩, _, rfl, rfl, rfl⟩

theorem Pool.iteration_moves (pool next : Pool)
    (h : pool.iteration false = .next next ∨ pool.iteration false = .blocked next) :
    next.scheduler.Store = pool.scheduler.Store ∧
    (∀ r ∈ next.scheduler.Encrypt.buf, r ∈ pool.scheduler.Encrypt.buf) ∧
    (∀ r, next.held = some r →
      pool.held = some r ∨ r ∈ pool.scheduler.Encrypt.buf) ∧
    (∀ r ∈ next.workers,
      r ∈ pool.workers ∨ pool.held = some r ∨ r ∈ pool.scheduler.Encrypt.buf) := by
  unfold Pool.iteration at h
  cases hheld : pool.held with
  | some request =>
    simp only [hheld, Pool.dispatch] at h
    cases htok : pool.scheduler.Encryptors.buf with
    | nil =>
      simp only [htok] at h
      rcases h with h | h
      · simp at h
      · simp only [Iter.blocked.injEq] at h
        subst h
        refine ⟨rfl, fun r hr => hr, ?_, fun r hr => Or.inl hr⟩
        intro r hr
        simp only [Option.some.injEq] at hr
        exact Or.inl (by rw [hr])
    | cons t ts =>
      simp only [htok] at h
      rcases h with h | h
      · simp only [Iter.next.injEq] at h
        subst h
        refine ⟨rfl, fun r hr => hr, by simp, ?_⟩
        intro r hr
        simp only [List.mem_append, List.mem_singleton] at hr
        rcases hr with hr | hr
        · exact Or.inl hr
        · exact Or.inr (Or.inl (by rw [hr]))
      · simp at h
  | none =>
    simp only [hheld, Bool.false_eq_true, if_false, Pool.dispatch] at h
    cases hq : pool.scheduler.Encrypt.buf with
    | nil =>
      simp only [hq] at h
      rcases h with h | h
      · simp at h
      · simp only [Iter.blocked.injEq] at h
        subst h
        simp [hheld, hq]
    | cons request rest =>
      simp only [hq] at h
      cases htok : pool.scheduler.Encryptors.buf with
      | nil =>
        simp only [htok] at h
        rcases h with h | h
        · simp at h
        · simp only [Iter.blocked.injEq] at h
          subst h
          refine ⟨rfl, ?_, ?_, ?_⟩
          · intro r hr; exact List.mem_cons_of_mem _ hr
          · intro r hr
            simp only [Option.some.injEq] at hr
            exact Or.inr (by rw [← hr]; exact List.mem_cons_self _ _)
          · intro r hr; exact Or.inl hr
      | cons t ts =>
        simp only [htok] at h
        rcases h with h | h
        · simp only [Iter.next.injEq] at h
          subst h
          refine ⟨rfl, ?_, by simp, ?_⟩
          · intro r hr; exact List.mem_cons_of_mem _ hr
          · intro r hr
            simp only [List.mem_append, List.mem_singleton] at hr
            rcases hr with hr | hr
            · exact Or.inl hr
            · exact Or.inr (Or.inr (by rw [hr]; exact List.mem_cons_self _ _))
        · simp at h

theorem System.dispatch_moves (sys next : System)
    (h : sys.dispatch = some next ∨ sys.await = some next) :
    next.Track = sys.Track ∧ next.Store = sys.Store ∧
    (∀ r ∈ next.Encrypt.buf, r ∈ sys.Encrypt.buf) ∧
    (∀ r, next.held = some r → sys.held = some r ∨ r ∈ sys.Encrypt.buf) ∧
    (∀ r ∈ next.workers, r ∈ sys.workers ∨ sys.held = some r ∨ r ∈ sys.Encrypt.buf) := by
  simp only [System.dispatch, System.await] at h
  cases hit : Pool.iteration false
      { scheduler := sys.toEncryptorHandler, held := sys.held, workers := sys.workers } with
  | next pool =>
    rw [hit] at h
    have hm := Pool.iteration_moves _ pool (Or.inl hit)
    rcases h with h | h
    · simp only [Option.some.injEq] at h
      subst h
      exact ⟨rfl, hm.1, hm.2.1, hm.2.2.1, hm.2.2.2⟩
    · simp at h
  | blocked pool =>
    rw [hit] at h
    have hm := Pool.iteration_moves _ pool (Or.inr hit)
    rcases h with h | h
    · simp at h
    · simp only [Option.some.injEq] at h
      subst h
      exact ⟨rfl, hm.1, hm.2.1, hm.2.2.1, hm.2.2.2⟩
  | returned err pool => rw [hit] at h; simp at h
  | panicked pool => rw [hit] at h; simp at h

theorem System.sign_effect (sys next : System) (request : Request) (attempt : Attempt)
    (h : sys.sign request attempt = some next) :
    request ∈ sys.workers ∧ next.Track = sys.Track ∧ next.Encrypt = sys.Encrypt ∧
    next.held = sys.held ∧ next.workers = sys.workers ∧
    (next.Store = sys.Store ∨
      ∃ s, next.Store
        = sys.Store ++ [{ RequestId := request.RequestId, Signature := s, Add := true }]) := by
  simp only [System.sign] at h
  by_cases hmem : request ∈ sys.workers
  · simp only [hmem, if_true, Option.some.injEq] at h
    subst h
    refine ⟨hmem, rfl, rfl, rfl, rfl, ?_⟩
    cases attempt with
    | requestError => left; rfl
    | transportError => left; rfl
    | response statusCode body =>
      by_cases hs : statusCode = StatusOK
      · cases body with
        | none => left; simp [encryptor, hs, System.toEncryptorHandler]
        | some b => right; exact ⟨b, by simp [encryptor, hs, System.toEncryptorHandler]⟩
      · left; simp [encryptor, hs, System.toEncryptorHandler]
  · simp [hmem] at h

theorem System.release_effect (sys next : System) (request : Request)
    (h : sys.release request = some next) :
    next.Track = sys.Track ∧ next.Store = sys.Store ∧ next.Encrypt = sys.Encrypt ∧
    next.held = sys.held ∧ ∀ r ∈ next.workers, r ∈ sys.workers := by
  simp only [System.release] at h
  by_cases hmem : request ∈ sys.workers
  · simp only [hmem, if_true] at h
    cases hsend : sys.Encryptors.trySend () with
    | sent ch =>
      rw [hsend] at h
      simp only [Option.some.injEq] at h
      subst h
      exact ⟨rfl, rfl, rfl, rfl, fun r hr => List.mem_of_mem_erase hr⟩
    | handedOff ch v =>
      rw [hsend] at h
      simp only [Option.some.injEq] at h
      subst h
      exact ⟨rfl, rfl, rfl, rfl, fun r hr => List.mem_of_mem_erase hr⟩
    | wouldBlock => rw [hsend] at h; simp at h
  · simp [hmem] at h

theorem System.track_effect (sys next : System) (command : PendingRequest)
    (rest : List PendingRequest) (hq : sys.Track = command :: rest)
    (h : sys.track = some next) :
    next.Track = rest ∧ next.Store = sys.Store ∧ next.Encrypt = sys.Encrypt ∧
    next.held = sys.held ∧ next.workers = sys.workers := by
  simp only [System.track, Tracker.iteration, Bool.false_eq_true, if_false, hq] at h
  cases hadd : command.Add with
  | true =>
    simp only [hadd, if_true] at h
    cases hst : sys.Requests.store command.RequestId command with
    | none => rw [hst] at h; simp at h
    | some m =>
      rw [hst] at h
      simp only [Option.some.injEq] at h
      subst h
      exact ⟨rfl, rfl, rfl, rfl, rfl⟩
  | false =>
    simp only [hadd, Bool.false_eq_true, if_false, Option.some.injEq] at h
    subst h
    exact ⟨rfl, rfl, rfl, rfl, rfl⟩

theorem System.query_frame (sys : System) (id : String) (now : Time) :
    (sys.query id now).1.Track = sys.Track ∧ (sys.query id now).1.Encrypt = sys.Encrypt ∧
    (sys.query id now).1.held = sys.held ∧ (sys.query id now).1.workers = sys.workers := by
  simp only [System.query, System.withApplication, System.toApplication,
    Application.currentRequestHandler]
  cases hs : sys.Signatures.lookup id with
  | none => cases hp : sys.Requests.lookup id <;> simp
  | some s => simp

theorem Pipeline.ordered_actor {known : String → Prop} (p q : Pipeline)
    (hstep : Pipeline.ActorStep p q) (inv : p.Ordered known) : q.Ordered known := by
  cases hstep with
  | dispatch next h =>
    obtain ⟨hT, hS, hE, hH, hW⟩ := System.dispatch_moves p.sys next (Or.inl h)
    refine ⟨?_, ?_, ?_, ?_, ?_⟩ <;> simp only [hT, hS]
    · intro r hr; exact inv.queued r (hE r hr)
    · intro r hr
      rcases hH r hr with h1 | h1
      · exact inv.held r h1
      · exact inv.queued r h1
    · intro r hr
      rcases hW r hr with h1 | h1 | h1
      · exact inv.workers r h1
      · exact inv.held r h1
      · exact inv.queued r h1
    · exact inv.signed
    · exact inv.ordered
  | await next h =>
    obtain ⟨hT, hS, hE, hH, hW⟩ := System.dispatch_moves p.sys next (Or.inr h)
    refine ⟨?_, ?_, ?_, ?_, ?_⟩ <;> simp only [hT, hS]
    · intro r hr; exact inv.queued r (hE r hr)
    · intro r hr
      rcases hH r hr with h1 | h1
      · exact inv.held r h1
      · exact inv.queued r h1
    · intro r hr
      rcases hW r hr with h1 | h1 | h1
      · exact inv.workers r h1
      · exact inv.held r h1
      · exact inv.queued r h1
    · exact inv.signed
    · exact inv.ordered
  | sign request attempt next h =>
    obtain ⟨hmem, hT, hE, hH, hW, hS⟩ := System.sign_effect p.sys next request attempt h
    refine ⟨?_, ?_, ?_, ?_, ?_⟩ <;> simp only [hT, hE, hH, hW]
    · exact inv.queued
    · exact inv.held
    · exact inv.workers
    · intro c hc hadd
      rcases hS with hS | ⟨s, hS⟩
      · rw [hS] at hc; exact inv.signed c hc hadd
      · rw [hS] at hc
        rcases List.mem_append.mp hc with hc | hc
        · exact inv.signed c hc hadd
        · simp only [List.mem_singleton] at hc
          rw [hc]
          exact inv.workers request hmem
    · exact inv.ordered
  | release request next h =>
    obtain ⟨hT, hS, hE, hH, hW⟩ := System.release_effect p.sys next request h
    refine ⟨?_, ?_, ?_, ?_, ?_⟩ <;> simp only [hT, hS, hE, hH]
    · exact inv.queued
    · exact inv.held
    · intro r hr; exact inv.workers r (hW r hr)
    · exact inv.signed
    · exact inv.ordered
  | store now next h =>
    obtain ⟨command, rest, hq, hrest, hE, hH, hW, hcase⟩ :=
      System.store_effect p.sys next now h
    have hsub : ∀ c ∈ next.Store, c ∈ p.sys.Store := by
      intro c hc
      rw [hrest] at hc
      rw [hq]
      exact List.mem_cons_of_mem _ hc
    rcases hcase with ⟨hadd, _, removal, hT, hrem, hid⟩ | ⟨_, _, hT⟩
    · have hann : announcedIn known (p.applied ++ p.sys.Track) removal.RequestId := by
        rw [hid]
        exact inv.signed command (by rw [hq]; exact List.mem_cons_self _ _) hadd
      have hL : p.applied ++ next.Track = (p.applied ++ p.sys.Track) ++ [removal] := by
        rw [hT]; simp
      refine ⟨?_, ?_, ?_, ?_, ?_⟩ <;> simp only [hL, hE, hH, hW]
      · intro r hr; exact announcedIn_append _ _ _ (inv.queued r hr)
      · intro r hr; exact announcedIn_append _ _ _ (inv.held r hr)
      · intro r hr; exact announcedIn_append _ _ _ (inv.workers r hr)
      · intro c hc hadd'
        exact announcedIn_append _ _ _ (inv.signed c (hsub c hc) hadd')
      · exact orderedLog_snoc _ _ inv.ordered (fun _ => hann)
    · refine ⟨?_, ?_, ?_, ?_, ?_⟩ <;> simp only [hT, hE, hH, hW]
      · exact inv.queued
      · exact inv.held
      · exact inv.workers
      · intro c hc hadd'; exact inv.signed c (hsub c hc) hadd'
      · exact inv.ordered
  | track command rest next hq h =>
    obtain ⟨hT, hS, hE, hH, hW⟩ := System.track_effect p.sys next command rest hq h
    have hL : (p.applied ++ [command]) ++ next.Track = p.applied ++ p.sys.Track := by
      rw [hT, hq]; simp
    refine ⟨?_, ?_, ?_, ?_, ?_⟩ <;> simp only [hL, hS, hE, hH, hW]
    · exact inv.queued
    · exact inv.held
    · exact inv.workers
    · exact inv.signed
    · exact inv.ordered
  | query requestId now =>
    obtain ⟨hT, hE, hH, hW⟩ := System.query_frame p.sys requestId now
    obtain ⟨_, hS, _, _⟩ := System.query_effect p.sys requestId now
    refine ⟨?_, ?_, ?_, ?_, ?_⟩ <;> simp only [hT, hE, hH, hW]
    · exact inv.queued
    · exact inv.held
    · exact inv.workers
    · intro c hc hadd
      rcases hS with hS | ⟨s, hS⟩
      · rw [hS] at hc; exact inv.signed c hc hadd
      · rw [hS] at hc
        rcases List.mem_append.mp hc with hc | hc
        · exact inv.signed c hc hadd
        · simp only [List.mem_singleton] at hc
          rw [hc] at hadd
          simp at hadd
    · exact inv.ordered

theorem Pipeline.ordered_atomic {known : String → Prop} (p q : Pipeline)
    (hstep : Pipeline.AtomicStep p q) (inv : p.Ordered known) : q.Ordered known := by
  cases hstep with
  | actor _ h => exact Pipeline.ordered_actor p q h inv
  | admission requestId message now later =>
    rcases System.newRequest_effect p.sys requestId message now later with
      hsame | ⟨hH, hW, hE, hS, u, hadd, hid, hT⟩
    · rw [hsame]; exact inv
    · have hL : p.applied ++ (p.sys.newRequest requestId message now later).1.Track
          = (p.applied ++ p.sys.Track) ++ [u] := by
        rw [hT]; simp
      have hnew : announcedIn known ((p.applied ++ p.sys.Track) ++ [u]) requestId := by
        rw [← hid]; exact announcedIn_last _ u hadd
      refine ⟨?_, ?_, ?_, ?_, ?_⟩ <;> simp only [hL, hH, hW]
      · intro r hr
        rcases hE with hE | hE
        · rw [hE] at hr; exact announcedIn_append _ _ _ (inv.queued r hr)
        · rw [hE] at hr
          rcases List.mem_append.mp hr with hr | hr
          · exact announcedIn_append _ _ _ (inv.queued r hr)
          · simp only [List.mem_singleton] at hr
            rw [hr]
            exact hnew
      · intro r hr; exact announcedIn_append _ _ _ (inv.held r hr)
      · intro r hr; exact announcedIn_append _ _ _ (inv.workers r hr)
      · intro c hc hadd'
        rcases hS with hS | ⟨s, hS⟩
        · rw [hS] at hc; exact announcedIn_append _ _ _ (inv.signed c hc hadd')
        · rw [hS] at hc
          rcases List.mem_append.mp hc with hc | hc
          · exact announcedIn_append _ _ _ (inv.signed c hc hadd')
          · simp only [List.mem_singleton] at hc
            rw [hc] at hadd'
            simp at hadd'
      · exact orderedLog_snoc _ _ inv.ordered (fun hfalse => by rw [hadd] at hfalse; simp at hfalse)

theorem replay_members (entries : List (String × PendingRequest)) :
    ∀ encrypt next : Chan Request, replay entries encrypt = some next →
      ∀ r ∈ next.buf, r ∈ encrypt.buf ∨
        ∃ e ∈ entries, r = { RequestId := e.1, Message := e.2.Message } := by
  induction entries with
  | nil =>
    intro encrypt next h r hr
    simp only [replay, Option.some.injEq] at h
    subst h
    exact Or.inl hr
  | cons e rest ih =>
    intro encrypt next h r hr
    obtain ⟨k, v⟩ := e
    simp only [replay, Chan.trySend] at h
    by_cases hlt : encrypt.buf.length < encrypt.cap
    · simp only [hlt, if_true] at h
      rcases ih _ next h r hr with hmem | ⟨e, he, hre⟩
      · rcases List.mem_append.mp hmem with hmem | hmem
        · exact Or.inl hmem
        · simp only [List.mem_singleton] at hmem
          exact Or.inr ⟨(k, v), List.mem_cons_self _ _, hmem⟩
      · exact Or.inr ⟨e, List.mem_cons_of_mem _ he, hre⟩
    · simp only [hlt, if_false] at h
      by_cases hready : encrypt.cap = 0 ∧ encrypt.recvReady = true
      · simp only [hready, and_self, if_true] at h
        rcases ih _ next h r hr with hmem | ⟨e, he, hre⟩
        · exact Or.inl hmem
        · exact Or.inr ⟨e, List.mem_cons_of_mem _ he, hre⟩
      · simp only [hready, if_false] at h
        simp at h

theorem InstantiateCurrentRequests_queue (fs : FileSystem) (json : Json PendingRequest)
    (capacity : Nat) (location : String) (requests : GoMap PendingRequest)
    (encrypt : Chan Request)
    (h : InstantiateCurrentRequests fs json { cap := capacity, buf := [], recvReady := false }
      location = .returned requests encrypt) :
    ∀ r ∈ encrypt.buf, (requests.lookup r.RequestId).isSome = true := by
  intro r hr
  simp only [InstantiateCurrentRequests] at h
  cases hread : fs.ReadFile location with
  | error err =>
    rw [hread] at h
    simp only [Loaded.returned.injEq] at h
    rw [← h.2] at hr
    simp at hr
  | ok content =>
    rw [hread] at h
    simp only at h
    by_cases hpos : content.length > 0
    · simp only [hpos, if_true] at h
      cases hparse : json.Unmarshal content with
      | error err =>
        rw [hparse] at h
        simp only [Loaded.returned.injEq] at h
        rw [← h.2] at hr
        simp at hr
      | ok pending =>
        rw [hparse] at h
        simp only at h
        cases hreplay : replay pending.range
            { cap := capacity, buf := [], recvReady := false } with
        | none => rw [hreplay] at h; simp at h
        | some ch =>
          rw [hreplay] at h
          simp only [Loaded.returned.injEq] at h
          obtain ⟨hreq, hch⟩ := h
          subst hreq
          subst hch
          rcases replay_members _ _ _ hreplay r hr with hmem | ⟨e, he, hre⟩
          · simp at hmem
          · obtain ⟨k, v⟩ := e
            rw [hre]
            rw [(GoMap.mem_range pending k v).mp he]
            rfl
    · simp only [hpos, if_false, Loaded.returned.injEq] at h
      rw [← h.2] at hr
      simp at hr

theorem Pipeline.boot_ordered (fs : FileSystem) (jsonSignatures : Json String)
    (jsonPending : Json PendingRequest) (config : Config) (encryptors : Chan Unit)
    (start : Pipeline)
    (hboot : Pipeline.boot fs jsonSignatures jsonPending config encryptors = some start) :
    start.Ordered (fun id => (start.sys.Requests.lookup id).isSome = true) := by
  simp only [Pipeline.boot] at hboot
  by_cases hneg : config.MaxRequestQueueSize < 0
  · simp [hneg] at hboot
  simp only [hneg, if_false] at hboot
  cases hload : InstantiateCurrentRequests fs jsonPending
      { cap := config.MaxRequestQueueSize.toNat, buf := [], recvReady := false }
      config.PendingPersistenceLocation with
  | blocked ch => rw [hload] at hboot; simp at hboot
  | returned requests encrypt =>
    rw [hload] at hboot
    simp only [Option.some.injEq] at hboot
    subst hboot
    refine ⟨?_, ?_, ?_, ?_, ?_⟩
    · intro r hr
      exact Or.inr (InstantiateCurrentRequests_queue fs jsonPending _ _ requests encrypt hload
        r hr)
    · intro r hr; simp at hr
    · intro r hr; simp at hr
    · intro c hc; simp at hc
    · intro pre c post hsplit
      simp at hsplit

theorem Pipeline.reachable_ordered {known : String → Prop} (start p : Pipeline)
    (hstart : start.Ordered known)
    (hexec : Relation.ReflTransGen Pipeline.AtomicStep start p) : p.Ordered known := by
  induction hexec with
  | refl => exact hstart
  | tail _ hstep ih => exact Pipeline.ordered_atomic _ _ hstep ih

/-- Claim C22, amended. In every execution from the state in which `main` starts the pipeline,
with or without snapshots to load, in which each run of `newRequestHandler` is one step, its
send on `Track` following its send on `Encrypt` with nothing in between, the tracker never
applies a removal for an id before it has applied an insertion for that id, unless the id was
a key of the pending map loaded at startup. -/
theorem upsert_applied_before_removal (fs : FileSystem) (jsonSignatures : Json String)
    (jsonPending : Json PendingRequest) (config : Config) (encryptors : Chan Unit)
    (start p : Pipeline)
    (hboot : Pipeline.boot fs jsonSignatures jsonPending config encryptors = some start)
    (hexec : Relation.ReflTransGen Pipeline.AtomicStep start p) :
    ∀ (pre post : List PendingRequest) (removal : PendingRequest),
      p.applied = pre ++ removal :: post → removal.Add = false →
      (∃ upsert ∈ pre, upsert.Add = true ∧ upsert.RequestId = removal.RequestId) ∨
      (start.sys.Requests.lookup removal.RequestId).isSome = true := by
  intro pre post removal hsplit hrem
  have hord := orderedLog_prefix _ _
    (Pipeline.reachable_ordered start p
      (Pipeline.boot_ordered fs jsonSignatures jsonPending config encryptors start hboot)
      hexec).ordered
  exact hord pre removal post hsplit hrem

theorem completedRun_reachable :
    Relation.ReflTransGen Pipeline.AtomicStep
      (Pipeline.start 1 { cap := 1, buf := [()], recvReady := false } ":8080")
      completedRun := by
  have s1 : Pipeline.AtomicStep
      (Pipeline.start 1 { cap := 1, buf := [()], recvReady := false } ":8080")
      { sys := { completedRun.sys with
          Encrypt := { cap := 1, buf := [{ RequestId := "job", Message := "message" }],
                       recvReady := false },
          Track := [jobUpsert], Signatures := GoMap.make, Requests := GoMap.make,
          Encryptors := { cap := 1, buf := [()], recvReady := false }, workers := [] },
        announcing := [], applied := [] } := by
    have h := Pipeline.AtomicStep.admission
      (Pipeline.start 1 { cap := 1, buf := [()], recvReady := false } ":8080")
      "job" "message" 0 []
    rw [System.newRequest_pending _ _ _ _ rfl (by decide) (by decide)] at h
    exact h
  have s2 := Pipeline.ActorStep.track
    { sys := { completedRun.sys with
        Encrypt := { cap := 1, buf := [{ RequestId := "job", Message := "message" }],
                     recvReady := false },
        Track := [jobUpsert], Signatures := GoMap.make, Requests := GoMap.make,
        Encryptors := { cap := 1, buf := [()], recvReady := false }, workers := [] },
      announcing := [], applied := [] }
    jobUpsert []
    { completedRun.sys with
      Encrypt := { cap := 1, buf := [{ RequestId := "job", Message := "message" }],
                   recvReady := false },
      Signatures := GoMap.make,
      Requests := .mk (AList.insert "job" jobUpsert ∅),
      Encryptors := { cap := 1, buf := [()], recvReady := false }, workers := [] }
    rfl rfl
  have s3 := Pipeline.ActorStep.dispatch
    { sys := { completedRun.sys with
        Encrypt := { cap := 1, buf := [{ RequestId := "job", Message := "message" }],
                     recvReady := false },
        Signatures := GoMap.make,
        Requests := .mk (AList.insert "job" jobUpsert ∅),
        Encryptors := { cap := 1, buf := [()], recvReady := false }, workers := [] },
      announcing := [], applied := [jobUpsert] }
    { completedRun.sys with
      Signatures := GoMap.make, Requests := .mk (AList.insert "job" jobUpsert ∅) }
    rfl
  have s4 := Pipeline.ActorStep.sign
    { sys := { completedRun.sys with
        Signatures := GoMap.make, Requests := .mk (AList.insert "job" jobUpsert ∅) },
      announcing := [], applied := [jobUpsert] }
    { RequestId := "job", Message := "message" } (.response 200 (some "signature"))
    { completedRun.sys with
      Store := [{ RequestId := "job", Signature := "signature", Add := true }],
      Signatures := GoMap.make, Requests := .mk (AList.insert "job" jobUpsert ∅) }
    rfl
  have s5 := Pipeline.ActorStep.store
    { sys := { completedRun.sys with
        Store := [{ RequestId := "job", Signature := "signature", Add := true }],
        Signatures := GoMap.make, Requests := .mk (AList.insert "job" jobUpsert ∅) },
      announcing := [], applied := [jobUpsert] }
    0
    { completedRun.sys with
      Track := [jobRemoval], Requests := .mk (AList.insert "job" jobUpsert ∅) }
    rfl
  have s6 := Pipeline.ActorStep.track
    { sys := { completedRun.sys with
        Track := [jobRemoval], Requests := .mk (AList.insert "job" jobUpsert ∅) },
      announcing := [], applied := [jobUpsert] }
    jobRemoval [] completedRun.sys rfl rfl
  exact (((((Relation.ReflTransGen.single s1).tail (Pipeline.AtomicStep.actor _ _ s2)).tail
    (Pipeline.AtomicStep.actor _ _ s3)).tail (Pipeline.AtomicStep.actor _ _ s4)).tail
    (Pipeline.AtomicStep.actor _ _ s5)).tail (Pipeline.AtomicStep.actor _ _ s6)

theorem upsert_applied_before_removal_witness :
    Pipeline.boot noFiles (jsonFixed emptyObject GoMap.make)
      (jsonFixed emptyObject GoMap.make) (SetConfigs 1 1 ":8080" "debug")
      { cap := 1, buf := [()], recvReady := false }
      = some (Pipeline.start 1 { cap := 1, buf := [()], recvReady := false } ":8080") ∧
    Relation.ReflTransGen Pipeline.AtomicStep
      (Pipeline.start 1 { cap := 1, buf := [()], recvReady := false } ":8080")
      completedRun ∧
    completedRun.applied = [jobUpsert] ++ jobRemoval :: [] ∧
    ((∃ upsert ∈ [jobUpsert], upsert.Add = true ∧ upsert.RequestId = jobRemoval.RequestId) ∨
      ((Pipeline.start 1 { cap := 1, buf := [()], recvReady := false }
        ":8080").sys.Requests.lookup jobRemoval.RequestId).isSome = true) :=
  ⟨rfl, completedRun_reachable, rfl,
    upsert_applied_before_removal noFiles (jsonFixed emptyObject GoMap.make)
      (jsonFixed emptyObject GoMap.make) (SetConfigs 1 1 ":8080" "debug")
      { cap := 1, buf := [()], recvReady := false }
      (Pipeline.start 1 { cap := 1, buf := [()], recvReady := false } ":8080")
      completedRun rfl completedRun_reachable [jobUpsert] [] jobRemoval rfl rfl⟩

theorem Pool.iteration_queue (pool next : Pool)
    (h : pool.iteration false = .next next ∨ pool.iteration false = .blocked next) :
    next.scheduler.Encrypt.cap = pool.scheduler.Encrypt.cap ∧
    next.scheduler.Encrypt.buf.length ≤ pool.scheduler.Encrypt.buf.length := by
  unfold Pool.iteration at h
  cases hheld : pool.held with
  | some request =>
    simp only [hheld, Pool.dispatch] at h
    cases htok : pool.scheduler.Encryptors.buf with
    | nil =>
      simp only [htok] at h
      rcases h with h | h
      · simp at h
      · simp only [Iter.blocked.injEq] at h
        subst h
        exact ⟨rfl, le_refl _⟩
    | cons t ts =>
      simp only [htok] at h
      rcases h with h | h
      · simp only [Iter.next.injEq] at h
        subst h
        exact ⟨rfl, le_refl _⟩
      · simp at h
  | none =>
    simp only [hheld, Bool.false_eq_true, if_false, Pool.dispatch] at h
    cases hq : pool.scheduler.Encrypt.buf with
    | nil =>
      simp only [hq] at h
      rcases h with h | h
      · simp at h
      · simp only [Iter.blocked.injEq] at h
        subst h
        simp [hq]
    | cons request rest =>
      simp only [hq] at h
      cases htok : pool.scheduler.Encryptors.buf with
      | nil =>
        simp only [htok] at h
        rcases h with h | h
        · simp at h
        · simp only [Iter.blocked.injEq] at h
          subst h
          simp
      | cons t ts =>
        simp only [htok] at h
        rcases h with h | h
        · simp only [Iter.next.injEq] at h
          subst h
          simp
        · simp at h

theorem System.dispatch_queue (sys next : System)
    (h : sys.dispatch = some next ∨ sys.await = some next) :
    next.Encrypt.cap = sys.Encrypt.cap ∧
    next.Encrypt.buf.length ≤ sys.Encrypt.buf.length := by
  simp only [System.dispatch, System.await] at h
  cases hit : Pool.iteration false
      { scheduler := sys.toEncryptorHandler, held := sys.held, workers := sys.workers } with
  | next pool =>
    rw [hit] at h
    have hm := Pool.iteration_queue _ pool (Or.inl hit)
    rcases h with h | h
    · simp only [Option.some.injEq] at h
      subst h
      exact hm
    · simp at h
  | blocked pool =>
    rw [hit] at h
    have hm := Pool.iteration_queue _ pool (Or.inr hit)
    rcases h with h | h
    · simp at h
    · simp only [Option.some.injEq] at h
      subst h
      exact hm
  | returned err pool => rw [hit] at h; simp at h
  | panicked pool => rw [hit] at h; simp at h

theorem System.newRequest_queue (sys : System) (id message : String) (now : Time)
    (later : List (GoMap String)) (hfit : sys.Encrypt.buf.length ≤ sys.Encrypt.cap) :
    (sys.newRequest id message now later).1.Encrypt.cap = sys.Encrypt.cap ∧
    (sys.newRequest id message now later).1.Encrypt.buf.length ≤ sys.Encrypt.cap := by
  simp only [System.newRequest, System.withApplication, System.toApplication,
    Application.newRequestHandler, Chan.trySend]
  by_cases hlt : sys.Encrypt.buf.length < sys.Encrypt.cap
  · simp only [hlt, if_true]
    split <;>
      exact ⟨rfl, by simp only [List.length_append, List.length_singleton]; omega⟩
  · simp only [hlt, if_false]
    by_cases hready : sys.Encrypt.cap = 0 ∧ sys.Encrypt.recvReady = true
    · have hfit0 : sys.Encrypt.buf.length ≤ 0 := by rw [hready.1] at hfit; exact hfit
      simp only [hready, and_self, if_true]
      split <;> exact ⟨by simp [hready.1], hfit0⟩
    · simp only [hready, if_false]
      exact ⟨trivial, hfit⟩

theorem Pipeline.queue_within_capacity (capacity : Nat) (encryptors : Chan Unit)
    (port : String) (p : Pipeline)
    (hexec : Relation.ReflTransGen Pipeline.AtomicStep
      (Pipeline.start capacity encryptors port) p) :
    p.sys.Encrypt.cap = capacity ∧ p.sys.Encrypt.buf.length ≤ capacity := by
  induction hexec with
  | refl => simp [Pipeline.start]
  | @tail b _ _ hstep ih =>
    obtain ⟨hcap, hlen⟩ := ih
    cases hstep with
    | admission requestId message now later =>
      have h := System.newRequest_queue _ requestId message now later (by rw [hcap]; exact hlen)
      exact ⟨by rw [h.1, hcap], by rw [← hcap]; exact h.2⟩
    | actor _ hact =>
      cases hact with
      | dispatch next h =>
        have hq := System.dispatch_queue _ next (Or.inl h)
        exact ⟨by rw [hq.1, hcap], le_trans hq.2 hlen⟩
      | await next h =>
        have hq := System.dispatch_queue _ next (Or.inr h)
        exact ⟨by rw [hq.1, hcap], le_trans hq.2 hlen⟩
      | sign request attempt next h =>
        have hE := (System.sign_effect _ next request attempt h).2.2.1
        simp only [hE]
        exact ⟨hcap, hlen⟩
      | release request next h =>
        have hE := (System.release_effect _ next request h).2.2.1
        simp only [hE]
        exact ⟨hcap, hlen⟩
      | store now next h =>
        obtain ⟨_, _, _, _, hE, _⟩ := System.store_effect _ next now h
        simp only [hE]
        exact ⟨hcap, hlen⟩
      | track command rest next hq h =>
        have hE := (System.track_effect _ next command rest hq h).2.2.1
        simp only [hE]
        exact ⟨hcap, hlen⟩
      | query requestId now =>
        have hE := (System.query_frame b.sys requestId now).2.1
        simp only [hE]
        exact ⟨hcap, hlen⟩

/-- Claim C23, amended. In every state reached from the start of the pipeline the admission
queue holds at most as many requests as its capacity, and a pending snapshot with at most that
many entries is replayed by `InstantiateCurrentRequests` into the empty queue of the same
capacity without blocking, one request per entry. -/
theorem recovery_fits_when_snapshot_fits (capacity : Nat) (encryptors : Chan Unit)
    (port : String) (p : Pipeline) (fs : FileSystem) (json : Json PendingRequest)
    (location : String) (content : Bytes) (pending : GoMap PendingRequest)
    (hexec : Relation.ReflTransGen Pipeline.AtomicStep
      (Pipeline.start capacity encryptors port) p)
    (hread : fs location = some content) (hne : content ≠ [])
    (hparse : json.Unmarshal content = .ok pending)
    (hfit : pending.len ≤ capacity) :
    p.sys.Encrypt.cap = capacity ∧
    p.sys.Encrypt.buf.length ≤ capacity ∧
    ∃ added : List Request,
      InstantiateCurrentRequests fs json { cap := capacity, buf := [], recvReady := false }
          location
        = .returned pending { cap := capacity, buf := added, recvReady := false } ∧
      added.length = pending.len := by
  obtain ⟨hcap, hlen⟩ := Pipeline.queue_within_capacity capacity encryptors port p hexec
  refine ⟨hcap, hlen, pending.range.map (fun e => { RequestId := e.1, Message := e.2.Message }),
    ?_, by simp [GoMap.range_length]⟩
  have h := InstantiateCurrentRequests_with_room fs json
    { cap := capacity, buf := [], recvReady := false } location content pending hread hne hparse
    (by simpa using hfit)
  simpa using h

theorem recovery_fits_when_snapshot_fits_witness :
    oneFile "pending.json" pendingDocument "pending.json" = some pendingDocument ∧
    pendingSeven.Requests.len ≤ 1 ∧
    completedRun.sys.Encrypt.buf.length ≤ 1 ∧
    ∃ added : List Request,
      InstantiateCurrentRequests (oneFile "pending.json" pendingDocument)
          (jsonFixed pendingDocument pendingSeven.Requests)
          { cap := 1, buf := [], recvReady := false } "pending.json"
        = .returned pendingSeven.Requests { cap := 1, buf := added, recvReady := false } ∧
      added.length = pendingSeven.Requests.len :=
  ⟨by decide, by decide,
    (recovery_fits_when_snapshot_fits 1 { cap := 1, buf := [()], recvReady := false } ":8080"
      completedRun (oneFile "pending.json" pendingDocument)
      (jsonFixed pendingDocument pendingSeven.Requests) "pending.json" pendingDocument
      pendingSeven.Requests completedRun_reachable (by decide) (by decide)
      (by simp [jsonFixed]) (by decide)).2.1,
    (recovery_fits_when_snapshot_fits 1 { cap := 1, buf := [()], recvReady := false } ":8080"
      completedRun (oneFile "pending.json" pendingDocument)
      (jsonFixed pendingDocument pendingSeven.Requests) "pending.json" pendingDocument
      pendingSeven.Requests completedRun_reachable (by decide) (by decide)
      (by simp [jsonFixed]) (by decide)).2.2⟩

end App
